import Mathlib

/-!
Verification of the dogfights game core: a shallow embedding of the
simulation (`actors`), the camera, the server snapshot ring, the UDP
connection bookkeeping (`network`), and the binary codec (`bincode`).

Conventions of the embedding:
* `f32` scalars are modelled as `ℚ`; every arithmetic operation of the
  source maps to the corresponding exact rational operation.
* The trigonometric primitives `cos`/`sin` used by the source are not
  algebraic, so they are passed around as an explicit parameter `Trig`;
  all general theorems hold for every choice of `Trig`, and concrete
  runs instantiate it with a function that agrees with cosine/sine at
  the only rotation angle occurring in the run (namely `0`).
* Machine integers (`u32`, ticks, sequence numbers) are `Nat` with an
  explicit `% 2^32` where the source can overflow.
* Rust panics (`assert!`, `unreachable!`, out-of-bounds indexing) are
  modelled with `Except PanicKind` / `Option`.
* `HashMap`s are modelled as association lists together with the
  insert-replaces-existing-binding semantics; iteration order, which is
  unspecified for the Rust `HashMap`, is fixed to list order (none of
  the verified properties depend on it).
* Render-only data (sprites, textures, colors, bounding boxes) is
  omitted: no code path treated here reads it.
-/

namespace Dogfights

/-- Trigonometric primitives of `f32`, kept abstract. -/
structure Trig where
  cosf : ℚ → ℚ
  sinf : ℚ → ℚ

/-- Instantiation of `Trig` used for concrete runs whose only rotation
angle is `0`: it agrees with the real cosine/sine there
(`cos 0 = 1`, `sin 0 = 0`). -/
def trigZero : Trig := ⟨fun _ => 1, fun _ => 0⟩

/-- `geometry::Vec2`. -/
structure Vec2 where
  x : ℚ
  y : ℚ
  deriving DecidableEq, Repr

instance : Add Vec2 := ⟨fun a b => ⟨a.x + b.x, a.y + b.y⟩⟩

instance : Sub Vec2 := ⟨fun a b => ⟨a.x - b.x, a.y - b.y⟩⟩

@[simp] theorem Vec2.add_def (a b : Vec2) : a + b = ⟨a.x + b.x, a.y + b.y⟩ := rfl

@[simp] theorem Vec2.sub_def (a b : Vec2) : a - b = ⟨a.x - b.x, a.y - b.y⟩ := rfl

/-- `impl Mul<f32> for Vec2` (componentwise scaling). -/
def Vec2.scale (v : Vec2) (k : ℚ) : Vec2 := ⟨v.x * k, v.y * k⟩

def Vec2.zero : Vec2 := ⟨0, 0⟩

/-- `Vec2::rotate` (clockwise, because the y axis points down). -/
def Vec2.rotate (T : Trig) (v : Vec2) (rotation : ℚ) : Vec2 :=
  ⟨v.x * T.cosf rotation + v.y * T.sinf rotation,
   v.y * T.cosf rotation - v.x * T.sinf rotation⟩

/-- `geometry::Transform`. -/
structure Transform where
  pos : Vec2
  rotation : ℚ
  deriving DecidableEq, Repr

/-- `impl Add<Vec2> for Transform`. -/
def Transform.addVec (t : Transform) (v : Vec2) : Transform :=
  ⟨t.pos + v, t.rotation⟩

/-- `specs::Map` (background color/texture omitted: render-only). -/
structure Map where
  w : ℚ
  h : ℚ
  deriving DecidableEq, Repr

/-- `Map::bound`: clamp a point into `[0,w] × [0,h]`. -/
def Map.bound (m : Map) (p : Vec2) : Vec2 :=
  let f : ℚ → ℚ → ℚ := fun n mx => if n < 0 then 0 else if mx < n then mx else n
  ⟨f p.x m.w, f p.y m.h⟩

/-- `Map::bound_rect`: clamp a rectangle's top-left corner so the
`w × h` rectangle fits in the map. -/
def Map.bound_rect (m : Map) (p : Vec2) (w h : ℚ) : Vec2 :=
  let f : ℚ → ℚ → ℚ → ℚ := fun n edge mx =>
    if n < 0 then 0 else if mx < n + edge then mx - edge else n
  ⟨f p.x w m.w, f p.y h m.h⟩

/-- `conf::SCREEN_WIDTH`. -/
def SCREEN_WIDTH : ℚ := 800

/-- `conf::SCREEN_HEIGHT`. -/
def SCREEN_HEIGHT : ℚ := 600

/-- `conf::TIME_STEP` (50 ms). -/
def TIME_STEP : ℚ := 1 / 20

/-- `specs::CameraSpec`. -/
structure CameraSpec where
  accel : ℚ
  v_pad : ℚ
  h_pad : ℚ
  deriving DecidableEq, Repr

/-- `specs::ShipSpec` (sprites and bbox omitted: render-only /
 unused by `advance`). -/
structure ShipSpec where
  rotation_vel : ℚ
  rotation_vel_accel : ℚ
  accel : ℚ
  friction : ℚ
  gravity : ℚ
  bullet_spec : Nat
  firing_interval : ℚ
  shoot_from : Vec2
  deriving DecidableEq, Repr

/-- `specs::BulletSpec` (sprite and bbox omitted). -/
structure BulletSpec where
  vel : ℚ
  lifetime : ℚ
  deriving DecidableEq, Repr

/-- `specs::ShooterSpec` (sprite omitted). -/
structure ShooterSpec where
  trans : Transform
  bullet_spec : Nat
  firing_rate : ℚ
  deriving DecidableEq, Repr

/-- `specs::Spec`. -/
inductive Spec where
  | ship (s : ShipSpec)
  | shooter (s : ShooterSpec)
  | bullet (s : BulletSpec)
  deriving DecidableEq, Repr

/-- `specs::GameSpec`. -/
structure GameSpec where
  map : Map
  camera_spec : CameraSpec
  ship_spec : Nat
  shooter_spec : Nat
  specs : List Spec
  deriving DecidableEq, Repr

/-- `GameSpec::get_spec`; the source indexes `specs[spec_id]`, which
panics out of bounds, modelled by `none`. -/
def GameSpec.get_spec (g : GameSpec) (spec_id : Nat) : Option Spec :=
  g.specs.get? spec_id

/-- `Spec::is_ship`; `unreachable!` on the wrong constructor is `none`. -/
def Spec.is_ship : Spec → Option ShipSpec
  | .ship s => some s
  | _ => none

/-- `Spec::is_shooter`. -/
def Spec.is_shooter : Spec → Option ShooterSpec
  | .shooter s => some s
  | _ => none

/-- `Spec::is_bullet`. -/
def Spec.is_bullet : Spec → Option BulletSpec
  | .bullet s => some s
  | _ => none

/-- `sspec.get_spec(id).is_ship()` as one lookup. -/
def resolveShip (g : GameSpec) (spec_id : Nat) : Option ShipSpec :=
  (g.get_spec spec_id).bind Spec.is_ship

/-- `sspec.get_spec(id).is_shooter()` as one lookup. -/
def resolveShooter (g : GameSpec) (spec_id : Nat) : Option ShooterSpec :=
  (g.get_spec spec_id).bind Spec.is_shooter

/-- `sspec.get_spec(id).is_bullet()` as one lookup. -/
def resolveBullet (g : GameSpec) (spec_id : Nat) : Option BulletSpec :=
  (g.get_spec spec_id).bind Spec.is_bullet

/-- `actors::Camera`. -/
structure Camera where
  pos : Vec2
  vel : Vec2
  deriving DecidableEq, Repr

/-- `Camera::advance`: push by ship velocity, keep the ship away from
the viewport edges, then clamp the viewport into the map. -/
def Camera.advance (cam0 : Camera) (sspec : GameSpec) (ship_vel : Vec2)
    (ship_trans : Transform) (dt : ℚ) : Camera :=
  let spec := sspec.camera_spec
  let map := sspec.map
  let vel := ship_vel.scale spec.accel
  let pos := cam0.pos + vel.scale dt
  let posx :=
    if ship_trans.pos.x < pos.x + spec.h_pad then
      ship_trans.pos.x - spec.h_pad
    else if pos.x + SCREEN_WIDTH - spec.h_pad < ship_trans.pos.x then
      ship_trans.pos.x + spec.h_pad - SCREEN_WIDTH
    else pos.x
  let posy :=
    if ship_trans.pos.y < pos.y + spec.v_pad then
      ship_trans.pos.y - spec.v_pad
    else if pos.y + SCREEN_HEIGHT - spec.v_pad < ship_trans.pos.y then
      ship_trans.pos.y + spec.v_pad - SCREEN_HEIGHT
    else pos.y
  { pos := map.bound_rect ⟨posx, posy⟩ SCREEN_WIDTH SCREEN_HEIGHT
    vel := vel }

/-- `physics::State`. -/
structure PState where
  pos : Vec2
  vel : Vec2
  deriving DecidableEq, Repr

/-- `physics::Derivative`. -/
structure Derivative where
  dpos : Vec2
  dvel : Vec2
  deriving DecidableEq, Repr

/-- `physics::evaluate`; the `Acceleration` trait object is an explicit
function argument. -/
def evaluate (accelF : PState → Vec2) (state : PState) (dt : ℚ)
    (d : Derivative) : Derivative :=
  let state' : PState :=
    ⟨state.pos + d.dpos.scale dt, state.vel + d.dvel.scale dt⟩
  ⟨state'.vel, accelF state'⟩

/-- `physics::integrate` (RK4). -/
def integrate (accelF : PState → Vec2) (state : PState) (dt : ℚ) : PState :=
  let a := evaluate accelF state 0 ⟨Vec2.zero, Vec2.zero⟩
  let b := evaluate accelF state (dt * (1/2)) a
  let c := evaluate accelF state (dt * (1/2)) b
  let d := evaluate accelF state dt c
  let dposdt := ((a.dpos + (b.dpos + c.dpos).scale 2 + d.dpos).scale 1).scale (1/6)
  let dveldt := ((a.dvel + (b.dvel + c.dvel).scale 2 + d.dvel).scale 1).scale (1/6)
  ⟨state.pos + dposdt.scale dt, state.vel + dveldt.scale dt⟩

/-- `impl Acceleration for ShipState`: thrust along the heading when
accelerating, plus gravity, minus velocity-proportional friction. -/
def shipAccel (T : Trig) (spec : ShipSpec) (accel : Bool) (rotation : ℚ)
    (state : PState) : Vec2 :=
  let f := Vec2.zero
  let f :=
    if accel then
      ⟨f.x + T.cosf rotation * spec.accel,
       f.y + -1 * T.sinf rotation * spec.accel⟩
    else f
  let f : Vec2 := ⟨f.x, f.y + spec.gravity⟩
  let friction := state.vel.scale spec.friction
  f - friction

/-- `input::Rotating`. -/
inductive Rotating where
  | Still
  | Left
  | Right
  deriving DecidableEq, Repr

/-- `input::Input`. -/
structure Input where
  quit : Bool
  accel : Bool
  firing : Bool
  rotating : Rotating
  paused : Bool
  deriving DecidableEq, Repr

/-- `actors::Bullet`. -/
structure Bullet where
  spec : Nat
  trans : Transform
  age : ℚ
  deriving DecidableEq, Repr

/-- `actors::Ship`. -/
structure Ship where
  spec : Nat
  trans : Transform
  vel : Vec2
  not_firing_for : ℚ
  accel : Bool
  rotating : Rotating
  camera : Camera
  deriving DecidableEq, Repr

/-- `actors::Shooter`. -/
structure Shooter where
  spec : Nat
  time_since_fire : ℚ
  deriving DecidableEq, Repr

/-- `actors::Actor`. -/
inductive Actor where
  | ship (s : Ship)
  | shooter (s : Shooter)
  | bullet (b : Bullet)
  deriving DecidableEq, Repr

/-- Boolean test for the `Actor::Ship` constructor. -/
def Actor.isShipB : Actor → Bool
  | .ship _ => true
  | _ => false

/-- The panics that the modelled code can raise. -/
inductive PanicKind where
  | assertInputSome
  | badSpec
  deriving DecidableEq, Repr

/-- `actors::Actors`: a `HashMap<ActorId, Actor>` (as an association
list, iteration order fixed to list order) plus the id counter. -/
structure Actors where
  list : List (Nat × Actor)
  count : Nat
  deriving DecidableEq, Repr

/-- `Actors::new`. -/
def Actors.new : Actors := ⟨[], 0⟩

/-- `Actors::prepare_new`: empty registry carrying over the counter. -/
def Actors.prepare_new (old : Actors) : Actors := ⟨[], old.count⟩

/-- `HashMap::insert`: replace the binding if the key is present,
otherwise append it. -/
def Actors.insert (a : Actors) (actor_id : Nat) (actor : Actor) : Actors :=
  if a.list.any (fun p => p.1 = actor_id) then
    ⟨a.list.map (fun p => if p.1 = actor_id then (actor_id, actor) else p), a.count⟩
  else
    ⟨a.list ++ [(actor_id, actor)], a.count⟩

/-- `Actors::add`: insert under the next fresh id, bump the (u32)
counter, and return the fresh id. -/
def Actors.add (a : Actors) (actor : Actor) : Actors × Nat :=
  let actor_id := a.count
  let a' : Actors := ⟨a.list, (a.count + 1) % 2 ^ 32⟩
  (a'.insert actor_id actor, actor_id)

/-- `Bullet::advance`: move along the heading, age, and survive only
inside the map and below the spec lifetime. -/
def Bullet.advance (T : Trig) (sspec : GameSpec) (b : Bullet) (dt : ℚ) :
    Except PanicKind (Option Bullet) :=
  match resolveBullet sspec b.spec with
  | none => .error .badSpec
  | some spec =>
    let pos : Vec2 :=
      ⟨b.trans.pos.x + spec.vel * T.cosf b.trans.rotation * dt,
       b.trans.pos.y + -1 * spec.vel * T.sinf b.trans.rotation * dt⟩
    let bullet : Bullet :=
      ⟨b.spec, ⟨pos, b.trans.rotation⟩, b.age + dt⟩
    let alive :=
      0 ≤ bullet.trans.pos.x && bullet.trans.pos.x ≤ sspec.map.w &&
      (0 ≤ bullet.trans.pos.y && bullet.trans.pos.y ≤ sspec.map.h) &&
      bullet.age < spec.lifetime
    .ok (if alive then some bullet else none)

/-- `Ship::advance`: resolve the input, rotate, integrate the forces
with RK4, clamp to the map, advance the camera and possibly spawn a
bullet into `actors`. -/
def Ship.advance (T : Trig) (sspec : GameSpec) (s : Ship) (actors : Actors)
    (input : Option Input) (dt : ℚ) :
    Except PanicKind (Option Ship × Actors) :=
  match resolveShip sspec s.spec with
  | none => .error .badSpec
  | some spec =>
    let nff0 := s.not_firing_for + dt
    let (accel, rotating, firing, not_firing_for) :=
      match input with
      | none => (s.accel, s.rotating, false, nff0)
      | some input =>
        if input.firing && spec.firing_interval ≤ s.not_firing_for then
          (input.accel, input.rotating, true, 0)
        else
          (input.accel, input.rotating, false, nff0)
    let rotation_vel := if accel then spec.rotation_vel_accel else spec.rotation_vel
    let rotation_delta := dt * rotation_vel
    let rotation :=
      match rotating with
      | .Still => s.trans.rotation
      | .Left => s.trans.rotation + rotation_delta
      | .Right => s.trans.rotation - rotation_delta
    let st := integrate (shipAccel T spec accel rotation) ⟨s.trans.pos, s.vel⟩ dt
    let vel := st.vel
    let pos := sspec.map.bound st.pos
    let trans : Transform := ⟨pos, rotation⟩
    let camera := s.camera.advance sspec vel trans dt
    let actors :=
      if firing then
        let shoot_from := spec.shoot_from.rotate T trans.rotation
        let bullet : Bullet := ⟨spec.bullet_spec, trans.addVec shoot_from, 0⟩
        (actors.add (.bullet bullet)).1
      else actors
    .ok (some ⟨s.spec, trans, vel, not_firing_for, accel, rotating, camera⟩, actors)

/-- `Shooter::advance`: accumulate time and fire a bullet at the fixed
transform whenever the accumulated time strictly exceeds the firing
rate. -/
def Shooter.advance (sspec : GameSpec) (sh : Shooter) (actors : Actors)
    (dt : ℚ) : Except PanicKind (Option Shooter × Actors) :=
  match resolveShooter sspec sh.spec with
  | none => .error .badSpec
  | some spec =>
    let tsf := sh.time_since_fire + dt
    if spec.firing_rate < tsf then
      let bullet : Bullet := ⟨spec.bullet_spec, spec.trans, 0⟩
      .ok (some ⟨sh.spec, 0⟩, (actors.add (.bullet bullet)).1)
    else
      .ok (some ⟨sh.spec, tsf⟩, actors)

/-- `Actor::advance`: dispatch on the actor kind; shooters and bullets
`assert!` that no input is addressed to them. -/
def Actor.advanceA (T : Trig) (sspec : GameSpec) (a : Actor) (actors : Actors)
    (input : Option Input) (dt : ℚ) :
    Except PanicKind (Option Actor × Actors) :=
  match a with
  | .ship s =>
    (s.advance T sspec actors input dt).map fun p => (p.1.map .ship, p.2)
  | .shooter sh =>
    if input.isSome then .error .assertInputSome
    else (sh.advance sspec actors dt).map fun p => (p.1.map .shooter, p.2)
  | .bullet b =>
    if input.isSome then .error .assertInputSome
    else (b.advance T sspec dt).map fun mb => (mb.map .bullet, actors)

/-- `Actor::interact`: currently the identity placeholder. -/
def Actor.interact (_ : GameSpec) (_ : Actors) (a : Actor) : Option Actor :=
  some a

/-- `actors::PlayerInput`. -/
structure PlayerInput where
  player : Nat
  input : Input
  deriving DecidableEq, Repr

/-- `PlayerInput::lookup`: scan the batch and return the first input
addressed to `actor_id`. -/
def PlayerInput.lookup : List PlayerInput → Nat → Option Input
  | [], _ => none
  | pi :: rest, actor_id =>
    if pi.player = actor_id then some pi.input
    else PlayerInput.lookup rest actor_id

/-- `actors::Game`. -/
structure Game where
  actors : Actors
  time : ℚ
  deriving DecidableEq, Repr

/-- Pass A of `Game::advance`: advance every actor in registry order,
accumulating the new registry (into which ships/shooters also spawn
bullets). -/
def advanceLoop (T : Trig) (spec : GameSpec) (inputs : List PlayerInput)
    (dt : ℚ) : List (Nat × Actor) → Actors → Except PanicKind Actors
  | [], acc => .ok acc
  | (actor_id, actor) :: rest, acc => do
    let p ← actor.advanceA T spec acc (PlayerInput.lookup inputs actor_id) dt
    let acc' :=
      match p.1 with
      | none => p.2
      | some advanced => p.2.insert actor_id advanced
    advanceLoop T spec inputs dt rest acc'

/-- Pass B of `Game::advance`: rebuild the registry through
`Actor::interact`. -/
def interactLoop (spec : GameSpec) (advanced : Actors) :
    List (Nat × Actor) → Actors → Actors
  | [], acc => acc
  | (actor_id, actor) :: rest, acc =>
    match actor.interact spec advanced with
    | none => interactLoop spec advanced rest acc
    | some interacted => interactLoop spec advanced rest (acc.insert actor_id interacted)

/-- `Game::advance`: the two-pass tick; the result's `time` is bumped
by `dt`. -/
def Game.advanceE (T : Trig) (spec : GameSpec) (g : Game)
    (inputs : List PlayerInput) (dt : ℚ) : Except PanicKind Game := do
  let advanced ← advanceLoop T spec inputs dt g.actors.list (Actors.prepare_new g.actors)
  let interacted := interactLoop spec advanced advanced.list (Actors.prepare_new advanced)
  .ok ⟨interacted, g.time + dt⟩

/-- `server::SERVER_GAMES`: capacity of the snapshot ring. -/
def SERVER_GAMES : Nat := 32

/-- The snapshot ring of `Server::new`: it starts holding exactly the
initial game. -/
def serverNewGames (game : Game) : List Game := [game]

/-- One iteration of `Server::run`'s tick loop over the snapshot ring
(front of the list = front of the `RingBuf`): advance the front game,
pop the back when the ring is full, push the new game at the front.
`none` models a panic (empty ring or a panicking advance). -/
def serverTick (T : Trig) (spec : GameSpec) (inputs : List PlayerInput)
    (dt : ℚ) (ring : List Game) : Option (List Game) :=
  match ring with
  | [] => none
  | g :: rest =>
    match Game.advanceE T spec g inputs dt with
    | .error _ => none
    | .ok new_game =>
      let ring := g :: rest
      let ring := if SERVER_GAMES ≤ ring.length then ring.dropLast else ring
      some (new_game :: ring)

/-- A sequence of tick-loop iterations, one input batch per tick. -/
def serverRun (T : Trig) (spec : GameSpec) (dt : ℚ) :
    List (List PlayerInput) → List Game → Option (List Game)
  | [], ring => some ring
  | inputs :: batches, ring =>
    (serverTick T spec inputs dt ring).bind (serverRun T spec dt batches)

/-- `conf::CONN_TIMEOUT` (ms). -/
def CONN_TIMEOUT : Nat := 10000

/-- `conf::PROTO_ID`. -/
def PROTO_ID : Nat := 0xD05F1575

/-- `network::Seq`: a `u32` sequence number. -/
structure Seq where
  val : Nat
  deriving DecidableEq, Repr

/-- `Seq::bump`: `u32` increment (wraps at `2^32`). -/
def Seq.bump (s : Seq) : Seq := ⟨(s.val + 1) % 2 ^ 32⟩

/-- `u32` subtraction `a - b` (wrapping), for `a, b < 2^32`. -/
def sub32 (a b : Nat) : Nat := (a + 2 ^ 32 - b) % 2 ^ 32

/-- `network::Local` (the source field `local` is a Lean keyword, hence
`local_` below). -/
structure Local where
  seq : Seq
  ack : Seq
  deriving DecidableEq, Repr

/-- `network::Remote`. -/
structure Remote where
  ack : Seq
  received : Nat
  deriving DecidableEq, Repr

/-- `network::MsgType`. -/
inductive MsgType where
  | Ping
  | Pong
  | Normal
  deriving DecidableEq, Repr

/-- `network::Header`. -/
structure Header where
  proto_id : Nat
  local_ : Local
  msg_type : MsgType
  deriving DecidableEq, Repr

/-- `network::Conn`. -/
structure Conn where
  local_ : Local
  remote : Remote
  deriving DecidableEq, Repr

/-- The error kinds surfaced by `encode_and_send`. -/
inductive IoErrorKind where
  | Closed
  deriving DecidableEq, Repr

/-- `network::encode_and_send` (state and header part; the datagram
itself is the encoded header + body and is not needed here): fail with
`Closed` when the connection timed out, leaving the connection
untouched; otherwise bump `local.seq` and send a packet carrying the
bumped `local`. Returns the post-state and the outcome. -/
def encode_and_send (now : Nat) (conn : Conn) (msg_type : MsgType) :
    Conn × Except IoErrorKind Header :=
  if CONN_TIMEOUT < sub32 now conn.remote.received then
    (conn, .error .Closed)
  else
    let conn' : Conn := ⟨⟨conn.local_.seq.bump, conn.local_.ack⟩, conn.remote⟩
    (conn', .ok ⟨PROTO_ID, conn'.local_, msg_type⟩)

/-!  Concrete fixtures used by counterexamples and witnesses.  -/

/-- A ship spec with inert physics (no thrust, gravity or friction):
bullet spec id `1`, firing interval `1`, shoot offset `(10, 0)`. -/
def shipSpecC : ShipSpec := ⟨0, 0, 0, 0, 0, 1, 1, ⟨10, 0⟩⟩

/-- A bullet spec: velocity `0`, lifetime `10`. -/
def bulletSpecC : BulletSpec := ⟨0, 10⟩

/-- A shooter spec at the origin: bullet spec id `1`, firing rate
`0.1`. -/
def shooterSpecC : ShooterSpec := ⟨⟨⟨0, 0⟩, 0⟩, 1, 1 / 10⟩

/-- A `1000 × 1000` game spec holding the three specs above. -/
def gsC : GameSpec :=
  ⟨⟨1000, 1000⟩, ⟨0, 0, 0⟩, 0, 2,
   [.ship shipSpecC, .bullet bulletSpecC, .shooter shooterSpecC]⟩

/-- A game spec whose map is smaller than the screen. -/
def gsSmall : GameSpec := ⟨⟨0, 0⟩, ⟨0, 0, 0⟩, 0, 0, []⟩

/-- An input with no buttons pressed. -/
def inputStill : Input := ⟨false, false, false, .Still, false⟩

/-- An input that only fires. -/
def inputFire : Input := ⟨false, false, true, .Still, false⟩

/-- An input that only accelerates. -/
def inputAccel : Input := ⟨false, true, false, .Still, false⟩

/-- The empty game. -/
def g0 : Game := ⟨⟨[], 0⟩, 0⟩

/-- C3: for every game, input batch and `dt > 0`, a non-panicking
`Game::advance` returns a game whose `time` is the old `time` plus
`dt`. -/
theorem game_advance_time_eq (T : Trig) (spec : GameSpec) (g : Game)
    (inputs : List PlayerInput) (dt : ℚ) (g' : Game) (_hdt : 0 < dt)
    (h : Game.advanceE T spec g inputs dt = .ok g') :
    g'.time = g.time + dt := by
  unfold Game.advanceE at h
  cases hA : advanceLoop T spec inputs dt g.actors.list (Actors.prepare_new g.actors) with
  | error e =>
    rw [hA] at h
    exact Except.noConfusion h
  | ok adv =>
    rw [hA] at h
    simp only [Bind.bind, Except.bind, Except.ok.injEq] at h
    rw [← h]

/-- Witness for `game_advance_time_eq` at the empty game, `dt = 1`. -/
theorem game_advance_time_eq_witness :
    (0 : ℚ) < 1 ∧ (⟨⟨[], 0⟩, 0 + 1⟩ : Game).time = g0.time + 1 :=
  ⟨by norm_num,
   game_advance_time_eq trigZero gsC g0 [] 1 ⟨⟨[], 0⟩, 0 + 1⟩ (by norm_num) rfl⟩

/-- C6 (amended: the map must be at least as large as the screen): the
camera returned by `Camera::advance` has its viewport inside the map. -/
theorem camera_advance_in_map (cam : Camera) (sspec : GameSpec)
    (ship_vel : Vec2) (ship_trans : Transform) (dt : ℚ)
    (hw : SCREEN_WIDTH ≤ sspec.map.w) (hh : SCREEN_HEIGHT ≤ sspec.map.h) :
    0 ≤ (cam.advance sspec ship_vel ship_trans dt).pos.x ∧
    (cam.advance sspec ship_vel ship_trans dt).pos.x ≤ sspec.map.w - SCREEN_WIDTH ∧
    0 ≤ (cam.advance sspec ship_vel ship_trans dt).pos.y ∧
    (cam.advance sspec ship_vel ship_trans dt).pos.y ≤ sspec.map.h - SCREEN_HEIGHT := by
  unfold Camera.advance Map.bound_rect
  dsimp only
  refine ⟨?_, ?_, ?_, ?_⟩ <;> (split_ifs <;> linarith)

/-- Witness for `camera_advance_in_map` on the `1000 × 1000` spec. -/
theorem camera_advance_in_map_witness :
    SCREEN_WIDTH ≤ gsC.map.w ∧ SCREEN_HEIGHT ≤ gsC.map.h ∧
    (0 ≤ (Camera.advance ⟨⟨3, 4⟩, ⟨0, 0⟩⟩ gsC ⟨1, 2⟩ ⟨⟨5, 6⟩, 0⟩ 1).pos.x ∧
     (Camera.advance ⟨⟨3, 4⟩, ⟨0, 0⟩⟩ gsC ⟨1, 2⟩ ⟨⟨5, 6⟩, 0⟩ 1).pos.x ≤ gsC.map.w - SCREEN_WIDTH ∧
     0 ≤ (Camera.advance ⟨⟨3, 4⟩, ⟨0, 0⟩⟩ gsC ⟨1, 2⟩ ⟨⟨5, 6⟩, 0⟩ 1).pos.y ∧
     (Camera.advance ⟨⟨3, 4⟩, ⟨0, 0⟩⟩ gsC ⟨1, 2⟩ ⟨⟨5, 6⟩, 0⟩ 1).pos.y ≤ gsC.map.h - SCREEN_HEIGHT) :=
  ⟨by norm_num [SCREEN_WIDTH, gsC], by norm_num [SCREEN_HEIGHT, gsC],
   camera_advance_in_map ⟨⟨3, 4⟩, ⟨0, 0⟩⟩ gsC ⟨1, 2⟩ ⟨⟨5, 6⟩, 0⟩ 1
     (by norm_num [SCREEN_WIDTH, gsC]) (by norm_num [SCREEN_HEIGHT, gsC])⟩

/-- C6 counterexample: on a map smaller than the screen (here `0 × 0`)
the clamped camera position `-800` lies outside `[0, map.w − 800]`, so
the claim as stated (for every `GameSpec`) fails. -/
theorem camera_advance_in_map_cex :
    (Camera.advance ⟨⟨0, 0⟩, ⟨0, 0⟩⟩ gsSmall ⟨0, 0⟩ ⟨⟨0, 0⟩, 0⟩ 1).pos.x = -800 ∧
    ¬ (0 ≤ (Camera.advance ⟨⟨0, 0⟩, ⟨0, 0⟩⟩ gsSmall ⟨0, 0⟩ ⟨⟨0, 0⟩, 0⟩ 1).pos.x) := by
  norm_num [Camera.advance, Map.bound_rect, gsSmall, Vec2.scale,
    SCREEN_WIDTH, SCREEN_HEIGHT]

/-- One tick keeps the ring length in `[1, 32]`. -/
theorem serverTick_length (T : Trig) (spec : GameSpec)
    (inputs : List PlayerInput) (dt : ℚ) (ring r : List Game)
    (h1 : 1 ≤ ring.length) (h2 : ring.length ≤ SERVER_GAMES)
    (h : serverTick T spec inputs dt ring = some r) :
    1 ≤ r.length ∧ r.length ≤ SERVER_GAMES := by
  match ring, h1 with
  | g :: rest, _ =>
    simp only [serverTick] at h
    cases hA : Game.advanceE T spec g inputs dt with
    | error e => rw [hA] at h; exact Option.noConfusion h
    | ok ng =>
      rw [hA] at h
      simp only [Option.some.injEq] at h
      subst h
      simp only [List.length_cons]
      split
      · simp only [List.length_dropLast, List.length_cons]
        simp only [List.length_cons] at h2
        omega
      · next hlt =>
        simp only [List.length_cons] at h2 hlt ⊢
        unfold SERVER_GAMES at hlt h2 ⊢
        omega

/-- Any run of ticks keeps the ring length in `[1, 32]`. -/
theorem serverRun_length (T : Trig) (spec : GameSpec) (dt : ℚ)
    (batches : List (List PlayerInput)) (ring r : List Game)
    (h1 : 1 ≤ ring.length) (h2 : ring.length ≤ SERVER_GAMES)
    (h : serverRun T spec dt batches ring = some r) :
    1 ≤ r.length ∧ r.length ≤ SERVER_GAMES := by
  induction batches generalizing ring with
  | nil =>
    unfold serverRun at h
    simp only [Option.some.injEq] at h
    subst h
    exact ⟨h1, h2⟩
  | cons inputs batches ih =>
    unfold serverRun at h
    cases hT : serverTick T spec inputs dt ring with
    | none => rw [hT] at h; exact Option.noConfusion h
    | some mid =>
      rw [hT] at h
      obtain ⟨m1, m2⟩ := serverTick_length T spec inputs dt ring mid h1 h2 hT
      exact ih mid m1 m2 h

/-- C7: the snapshot ring starts with exactly one game, and after any
sequence of tick-loop iterations its length stays in `[1, 32]`. -/
theorem server_ring_bounds (T : Trig) (spec : GameSpec) (dt : ℚ) (g : Game)
    (batches : List (List PlayerInput)) (r : List Game)
    (h : serverRun T spec dt batches (serverNewGames g) = some r) :
    (serverNewGames g).length = 1 ∧ 1 ≤ r.length ∧ r.length ≤ 32 :=
  ⟨rfl, serverRun_length T spec dt batches (serverNewGames g) r
    (by simp [serverNewGames]) (by simp [serverNewGames, SERVER_GAMES]) h⟩

/-- Witness for `server_ring_bounds`: one tick from the initial ring. -/
theorem server_ring_bounds_witness :
    (serverNewGames g0).length = 1 ∧
    1 ≤ [(⟨⟨[], 0⟩, 0 + 1⟩ : Game), g0].length ∧
    [(⟨⟨[], 0⟩, 0 + 1⟩ : Game), g0].length ≤ 32 :=
  server_ring_bounds trigZero gsC 1 g0 [[]] [⟨⟨[], 0⟩, 0 + 1⟩, g0] rfl

/-- C8 (amended: all `u32` arithmetic is modulo `2^32`): given
monotone `u32` tick values, `encode_and_send` fails with `Closed`
exactly when more than `CONN_TIMEOUT` ms have elapsed since the last
received datagram, leaving the connection untouched; otherwise it bumps
`local.seq` by one modulo `2^32` (strictly increasing as long as the
counter does not wrap) and the sent header carries the bumped
`local`. -/
theorem encode_and_send_spec (now : Nat) (conn : Conn) (mt : MsgType)
    (hr : conn.remote.received ≤ now) (hn : now < 2 ^ 32) :
    ((encode_and_send now conn mt).2 = .error .Closed ↔
      CONN_TIMEOUT < now - conn.remote.received) ∧
    ((encode_and_send now conn mt).2 = .error .Closed →
      (encode_and_send now conn mt).1 = conn) ∧
    (∀ h : Header, (encode_and_send now conn mt).2 = .ok h →
      (encode_and_send now conn mt).1.local_.seq.val =
        (conn.local_.seq.val + 1) % 2 ^ 32 ∧
      h.local_ = (encode_and_send now conn mt).1.local_ ∧
      h.proto_id = PROTO_ID) ∧
    (conn.local_.seq.val + 1 < 2 ^ 32 →
      (encode_and_send now conn mt).2 ≠ .error .Closed →
      conn.local_.seq.val < (encode_and_send now conn mt).1.local_.seq.val) := by
  have hsub : sub32 now conn.remote.received = now - conn.remote.received := by
    unfold sub32
    omega
  unfold encode_and_send
  rw [hsub]
  split
  · next hc =>
    refine ⟨by simp [hc], fun _ => rfl, ?_, ?_⟩
    · intro h hok
      exact Except.noConfusion hok
    · intro _ hne
      exact absurd rfl hne
  · next hc =>
    refine ⟨by simp [hc], fun habs => Except.noConfusion habs, ?_, ?_⟩
    · intro h hok
      simp only [Except.ok.injEq] at hok
      subst hok
      exact ⟨rfl, rfl, rfl⟩
    · intro hlt _
      show conn.local_.seq.val < (conn.local_.seq.val + 1) % 2 ^ 32
      rw [Nat.mod_eq_of_lt hlt]
      omega

/-- Witness for `encode_and_send_spec` on a fresh connection at tick
`5`. -/
theorem encode_and_send_spec_witness :
    (⟨⟨⟨0⟩, ⟨0⟩⟩, ⟨⟨0⟩, 0⟩⟩ : Conn).remote.received ≤ 5 ∧
    ((encode_and_send 5 ⟨⟨⟨0⟩, ⟨0⟩⟩, ⟨⟨0⟩, 0⟩⟩ .Normal).2 = .error .Closed ↔
      CONN_TIMEOUT < 5 - (⟨⟨⟨0⟩, ⟨0⟩⟩, ⟨⟨0⟩, 0⟩⟩ : Conn).remote.received) :=
  ⟨by decide,
   (encode_and_send_spec 5 ⟨⟨⟨0⟩, ⟨0⟩⟩, ⟨⟨0⟩, 0⟩⟩ .Normal (by decide)
     (by norm_num)).1⟩

/-- C8 counterexample: at `seq = 2^32 − 1` a successful send wraps the
sequence number to `0`, which is neither `seq + 1` nor greater than
`seq`, so "increments by exactly 1 / strictly increasing" fails as
universally stated. -/
theorem encode_and_send_wrap_cex :
    (encode_and_send 0 ⟨⟨⟨2 ^ 32 - 1⟩, ⟨0⟩⟩, ⟨⟨0⟩, 0⟩⟩ .Normal).2 ≠
      .error .Closed ∧
    (encode_and_send 0 ⟨⟨⟨2 ^ 32 - 1⟩, ⟨0⟩⟩, ⟨⟨0⟩, 0⟩⟩ .Normal).1.local_.seq.val = 0 ∧
    ¬ ((encode_and_send 0 ⟨⟨⟨2 ^ 32 - 1⟩, ⟨0⟩⟩, ⟨⟨0⟩, 0⟩⟩ .Normal).1.local_.seq.val =
        (2 ^ 32 - 1) + 1) ∧
    ¬ (2 ^ 32 - 1 <
        (encode_and_send 0 ⟨⟨⟨2 ^ 32 - 1⟩, ⟨0⟩⟩, ⟨⟨0⟩, 0⟩⟩ .Normal).1.local_.seq.val) := by
  refine ⟨fun habs => Except.noConfusion habs, by decide, by decide, by decide⟩

/-- A ship with inert physics at `(100, 100)`, camera at the origin,
long-expired firing cooldown. -/
def shipC4 : Ship := ⟨0, ⟨⟨100, 100⟩, 0⟩, ⟨0, 0⟩, 100000, false, .Still, ⟨⟨0, 0⟩, ⟨0, 0⟩⟩⟩

/-- A game holding only `shipC4` under actor id `0`. -/
def gC4 : Game := ⟨⟨[(0, .ship shipC4)], 1⟩, 0⟩

/-- Two inputs for actor `0` in one batch: first coasting, then
accelerating. -/
def inputs4 : List PlayerInput := [⟨0, inputStill⟩, ⟨0, inputAccel⟩]

/-- `shipC4` after one tick of `dt = 1` under the first (coasting)
input. -/
def shipC4res : Ship :=
  ⟨0, ⟨⟨100, 100⟩, 0⟩, ⟨0, 0⟩, 100001, false, .Still, ⟨⟨0, 0⟩, ⟨0, 0⟩⟩⟩

/-- `gC4` after the tick. -/
def gC4res : Game := ⟨⟨[(0, .ship shipC4res)], 1⟩, 1⟩

/-- C4 (amended: the FIRST input wins): `PlayerInput::lookup` returns
the first input of the batch addressed to the given actor, so each
actor consumes at most one input per tick. -/
theorem playerinput_lookup_first (inputs : List PlayerInput) (actor_id : Nat) :
    PlayerInput.lookup inputs actor_id =
      (inputs.find? (fun pi => pi.player == actor_id)).map (fun pi => pi.input) := by
  induction inputs with
  | nil => rfl
  | cons pi rest ih =>
    unfold PlayerInput.lookup
    by_cases hp : pi.player = actor_id
    · rw [List.find?_cons_of_pos _ (by simp [hp]), if_pos hp]
      rfl
    · rw [List.find?_cons_of_neg _ (by simp [hp]), if_neg hp, ih]

/-- C4 counterexample: with two inputs for ship `0` in the batch (the
last one accelerating), the advanced ship took the FIRST input
(`accel = false`), not the last. -/
theorem game_advance_first_input_cex :
    (inputs4.getLast?.map fun pi => pi.input.accel) = some true ∧
    Game.advanceE trigZero gsC gC4 inputs4 1 = .ok gC4res ∧
    (0, Actor.ship shipC4res) ∈ gC4res.actors.list ∧
    shipC4res.accel = false := by
  refine ⟨rfl, ?_, by simp [gC4res], rfl⟩
  norm_num [Game.advanceE, advanceLoop, interactLoop, Actor.advanceA,
    Actor.interact, Ship.advance, resolveShip, GameSpec.get_spec, Spec.is_ship,
    gsC, shipSpecC, gC4, shipC4, inputs4, inputStill, inputAccel,
    PlayerInput.lookup, Actors.prepare_new, Actors.insert, Actors.add,
    integrate, evaluate, shipAccel, Vec2.scale, Vec2.zero, Camera.advance,
    Map.bound, Map.bound_rect, Transform.addVec, Vec2.rotate, trigZero,
    SCREEN_WIDTH, SCREEN_HEIGHT, Bind.bind, Except.bind, Except.map,
    bulletSpecC, shooterSpecC, gC4res, shipC4res]

/-- C5: `Shooter::advance` accumulates `dt` into `time_since_fire` and
spawns exactly one bullet (age `0`, at the spec's fixed transform),
resetting to `0`, exactly when the accumulated value strictly exceeds
`firing_rate`; in particular with rate `0.1` and `dt = 0.05` the first
two ticks from `0` spawn nothing (reaching exactly `0.1`) and the third
spawns one bullet. -/
theorem shooter_advance_spec :
    (∀ (sspec : GameSpec) (sh : Shooter) (acts : Actors) (dt : ℚ)
      (ss : ShooterSpec), resolveShooter sspec sh.spec = some ss →
      Shooter.advance sspec sh acts dt =
        if ss.firing_rate < sh.time_since_fire + dt then
          .ok (some ⟨sh.spec, 0⟩,
            (acts.add (.bullet ⟨ss.bullet_spec, ss.trans, 0⟩)).1)
        else .ok (some ⟨sh.spec, sh.time_since_fire + dt⟩, acts)) ∧
    (Shooter.advance gsC ⟨2, 0⟩ Actors.new (1 / 20) =
       .ok (some ⟨2, 1 / 20⟩, Actors.new) ∧
     Shooter.advance gsC ⟨2, 1 / 20⟩ Actors.new (1 / 20) =
       .ok (some ⟨2, 1 / 10⟩, Actors.new) ∧
     Shooter.advance gsC ⟨2, 1 / 10⟩ Actors.new (1 / 20) =
       .ok (some ⟨2, 0⟩,
         (Actors.new.add (.bullet ⟨1, ⟨⟨0, 0⟩, 0⟩, 0⟩)).1)) := by
  constructor
  · intro sspec sh acts dt ss h
    unfold Shooter.advance
    rw [h]
  · refine ⟨?_, ?_, ?_⟩ <;>
      norm_num [Shooter.advance, resolveShooter, GameSpec.get_spec,
        Spec.is_shooter, gsC, shooterSpecC, Actors.new, Actors.add,
        Actors.insert]

/-- Witness for `shooter_advance_spec` (its general conjunct) at a
shooter with accumulated time `5`, `dt = 1`. -/
theorem shooter_advance_spec_witness :
    resolveShooter gsC 2 = some shooterSpecC ∧
    Shooter.advance gsC ⟨2, 5⟩ Actors.new 1 =
      (if shooterSpecC.firing_rate < (5 : ℚ) + 1 then
        .ok (some ⟨2, 0⟩,
          (Actors.new.add
            (.bullet ⟨shooterSpecC.bullet_spec, shooterSpecC.trans, 0⟩)).1)
      else .ok (some ⟨2, (5 : ℚ) + 1⟩, Actors.new)) :=
  ⟨rfl, shooter_advance_spec.1 gsC ⟨2, 5⟩ Actors.new 1 shooterSpecC rfl⟩

/-- C1 (amended: the firing gate compares the PRE-increment cooldown
with the firing interval): with an input present, `Ship::advance` sets
the cooldown to `0` and appends exactly one bullet — of the spec's
bullet id, age `0`, transform the updated ship transform plus
`shoot_from` rotated by the updated rotation — exactly when the input
fires and the cooldown before adding `dt` is at least
`firing_interval`; otherwise the cooldown becomes its old value plus
`dt` and no bullet is added. -/
theorem ship_advance_firing (T : Trig) (sspec : GameSpec) (s : Ship)
    (acts : Actors) (input : Input) (dt : ℚ) (spec : ShipSpec)
    (h : resolveShip sspec s.spec = some spec) :
    ∃ s', Ship.advance T sspec s acts (some input) dt =
        .ok (some s',
          if input.firing && decide (spec.firing_interval ≤ s.not_firing_for) then
            (acts.add (.bullet ⟨spec.bullet_spec,
              s'.trans.addVec (spec.shoot_from.rotate T s'.trans.rotation), 0⟩)).1
          else acts) ∧
      s'.not_firing_for =
        (if input.firing && decide (spec.firing_interval ≤ s.not_firing_for) then 0
         else s.not_firing_for + dt) ∧
      s'.accel = input.accel ∧ s'.rotating = input.rotating ∧ s'.spec = s.spec := by
  unfold Ship.advance
  rw [h]
  by_cases hf : (input.firing && decide (spec.firing_interval ≤ s.not_firing_for)) = true
  · simp only [hf, if_true]
    exact ⟨_, rfl, rfl, rfl, rfl, rfl⟩
  · simp only [Bool.not_eq_true] at hf
    simp only [hf, Bool.false_eq_true, if_false]
    exact ⟨_, rfl, rfl, rfl, rfl, rfl⟩

/-- Witness for `ship_advance_firing` at `shipC4` under a firing
input. -/
theorem ship_advance_firing_witness :
    resolveShip gsC shipC4.spec = some shipSpecC ∧
    ∃ s', Ship.advance trigZero gsC shipC4 Actors.new (some inputFire) 1 =
        .ok (some s',
          if inputFire.firing &&
              decide (shipSpecC.firing_interval ≤ shipC4.not_firing_for) then
            (Actors.new.add (.bullet ⟨shipSpecC.bullet_spec,
              s'.trans.addVec
                (shipSpecC.shoot_from.rotate trigZero s'.trans.rotation), 0⟩)).1
          else Actors.new) ∧
      s'.not_firing_for =
        (if inputFire.firing &&
            decide (shipSpecC.firing_interval ≤ shipC4.not_firing_for) then 0
         else shipC4.not_firing_for + 1) ∧
      s'.accel = inputFire.accel ∧ s'.rotating = inputFire.rotating ∧
      s'.spec = shipC4.spec :=
  ⟨rfl, ship_advance_firing trigZero gsC shipC4 Actors.new inputFire 1
    shipSpecC rfl⟩

/-- A ship identical to `shipC4` but with cooldown `0`. -/
def shipGate : Ship := ⟨0, ⟨⟨100, 100⟩, 0⟩, ⟨0, 0⟩, 0, false, .Still, ⟨⟨0, 0⟩, ⟨0, 0⟩⟩⟩

/-- `shipGate` after one tick of `dt = 1` under a firing input. -/
def shipGateRes : Ship := ⟨0, ⟨⟨100, 100⟩, 0⟩, ⟨0, 0⟩, 1, false, .Still, ⟨⟨0, 0⟩, ⟨0, 0⟩⟩⟩

/-- C1 counterexample: with cooldown `0`, `dt = 1` and firing interval
`1`, the incremented cooldown reaches the interval, yet the ship does
not fire (no bullet is added, the cooldown is not reset): the gate uses
the cooldown before the increment. -/
theorem ship_advance_firing_gate_cex :
    inputFire.firing = true ∧
    shipSpecC.firing_interval ≤ shipGate.not_firing_for + 1 ∧
    Ship.advance trigZero gsC shipGate Actors.new (some inputFire) 1 =
      .ok (some shipGateRes, Actors.new) ∧
    shipGateRes.not_firing_for = 1 ∧
    Actors.new.list = [] := by
  refine ⟨rfl, by norm_num [shipSpecC, shipGate], ?_, rfl, rfl⟩
  norm_num [Ship.advance, resolveShip, GameSpec.get_spec, Spec.is_ship,
    gsC, shipSpecC, shipGate, inputFire, integrate, evaluate, shipAccel,
    Vec2.scale, Vec2.zero, Camera.advance, Map.bound, Map.bound_rect,
    Transform.addVec, Vec2.rotate, trigZero, SCREEN_WIDTH, SCREEN_HEIGHT,
    Actors.new, Actors.add, Actors.insert, shipGateRes]

/-- `Ship::advance` can only panic on a bad spec lookup. -/
theorem ship_advance_error (T : Trig) (sspec : GameSpec) (s : Ship)
    (acts : Actors) (input : Option Input) (dt : ℚ) (e : PanicKind)
    (h : Ship.advance T sspec s acts input dt = .error e) : e = .badSpec := by
  unfold Ship.advance at h
  cases hr : resolveShip sspec s.spec with
  | none => rw [hr] at h; exact (Except.error.injEq _ _ ▸ h).symm
  | some spec => rw [hr] at h; exact Except.noConfusion h

/-- `Shooter::advance` can only panic on a bad spec lookup. -/
theorem shooter_advance_error (sspec : GameSpec) (sh : Shooter)
    (acts : Actors) (dt : ℚ) (e : PanicKind)
    (h : Shooter.advance sspec sh acts dt = .error e) : e = .badSpec := by
  unfold Shooter.advance at h
  cases hr : resolveShooter sspec sh.spec with
  | none => rw [hr] at h; exact (Except.error.injEq _ _ ▸ h).symm
  | some spec =>
    rw [hr] at h
    dsimp only at h
    split at h
    · exact Except.noConfusion h
    · exact Except.noConfusion h

/-- `Bullet::advance` can only panic on a bad spec lookup. -/
theorem bullet_advance_error (T : Trig) (sspec : GameSpec) (b : Bullet)
    (dt : ℚ) (e : PanicKind)
    (h : Bullet.advance T sspec b dt = .error e) : e = .badSpec := by
  unfold Bullet.advance at h
  cases hr : resolveBullet sspec b.spec with
  | none => rw [hr] at h; exact (Except.error.injEq _ _ ▸ h).symm
  | some spec => rw [hr] at h; exact Except.noConfusion h

/-- A successful `PlayerInput::lookup` means some input of the batch is
addressed to the actor. -/
theorem lookup_isSome_mem (inputs : List PlayerInput) (actor_id : Nat)
    (h : (PlayerInput.lookup inputs actor_id).isSome = true) :
    ∃ pi ∈ inputs, pi.player = actor_id := by
  induction inputs with
  | nil => exact absurd h (by simp [PlayerInput.lookup])
  | cons pi rest ih =>
    unfold PlayerInput.lookup at h
    by_cases hp : pi.player = actor_id
    · exact ⟨pi, List.mem_cons_self _ _, hp⟩
    · rw [if_neg hp] at h
      obtain ⟨pj, hm, hpj⟩ := ih h
      exact ⟨pj, List.mem_cons_of_mem _ hm, hpj⟩

/-- `Actor::advance` on a ship, by definition. -/
theorem advanceA_ship (T : Trig) (sspec : GameSpec) (s : Ship)
    (acts : Actors) (input : Option Input) (dt : ℚ) :
    Actor.advanceA T sspec (.ship s) acts input dt =
      (Ship.advance T sspec s acts input dt).map fun p =>
        (p.1.map .ship, p.2) := rfl

/-- `Actor::advance` on a shooter, by definition. -/
theorem advanceA_shooter (T : Trig) (sspec : GameSpec) (sh : Shooter)
    (acts : Actors) (input : Option Input) (dt : ℚ) :
    Actor.advanceA T sspec (.shooter sh) acts input dt =
      if input.isSome = true then .error .assertInputSome
      else (Shooter.advance sspec sh acts dt).map fun p =>
        (p.1.map .shooter, p.2) := rfl

/-- `Actor::advance` on a bullet, by definition. -/
theorem advanceA_bullet (T : Trig) (sspec : GameSpec) (b : Bullet)
    (acts : Actors) (input : Option Input) (dt : ℚ) :
    Actor.advanceA T sspec (.bullet b) acts input dt =
      if input.isSome = true then .error .assertInputSome
      else (Bullet.advance T sspec b dt).map fun mb =>
        (mb.map .bullet, acts) := rfl

/-- If an actor is a ship, or receives no input, its `advance` never
trips the input assertion. -/
theorem advanceA_error_badSpec (T : Trig) (sspec : GameSpec) (a : Actor)
    (acts : Actors) (input : Option Input) (dt : ℚ) (e : PanicKind)
    (hsafe : a.isShipB = true ∨ input = none)
    (h : Actor.advanceA T sspec a acts input dt = .error e) : e = .badSpec := by
  cases a with
  | ship s =>
    rw [advanceA_ship] at h
    cases hA : Ship.advance T sspec s acts input dt with
    | error e' =>
      rw [hA] at h
      simp only [Except.map, Except.error.injEq] at h
      rw [← h]
      exact ship_advance_error T sspec s acts input dt e' hA
    | ok p => rw [hA] at h; exact Except.noConfusion h
  | shooter sh =>
    have hnone : input = none := by
      rcases hsafe with hs | hn
      · exact absurd hs (by simp [Actor.isShipB])
      · exact hn
    subst hnone
    rw [advanceA_shooter] at h
    simp only [Option.isSome_none, Bool.false_eq_true, if_false] at h
    cases hA : Shooter.advance sspec sh acts dt with
    | error e' =>
      rw [hA] at h
      simp only [Except.map, Except.error.injEq] at h
      rw [← h]
      exact shooter_advance_error sspec sh acts dt e' hA
    | ok p => rw [hA] at h; exact Except.noConfusion h
  | bullet b =>
    have hnone : input = none := by
      rcases hsafe with hs | hn
      · exact absurd hs (by simp [Actor.isShipB])
      · exact hn
    subst hnone
    rw [advanceA_bullet] at h
    simp only [Option.isSome_none, Bool.false_eq_true, if_false] at h
    cases hA : Bullet.advance T sspec b dt with
    | error e' =>
      rw [hA] at h
      simp only [Except.map, Except.error.injEq] at h
      rw [← h]
      exact bullet_advance_error T sspec b dt e' hA
    | ok p => rw [hA] at h; exact Except.noConfusion h

/-- A shooter or bullet addressed by an input trips the assertion. -/
theorem advanceA_assert (T : Trig) (sspec : GameSpec) (a : Actor)
    (acts : Actors) (input : Option Input) (dt : ℚ)
    (hbad : a.isShipB = false) (hsome : input.isSome = true) :
    Actor.advanceA T sspec a acts input dt = .error .assertInputSome := by
  cases a with
  | ship s => exact absurd hbad (by simp [Actor.isShipB])
  | shooter sh => rw [advanceA_shooter, if_pos hsome]
  | bullet b => rw [advanceA_bullet, if_pos hsome]

/-- Pass A never trips the input assertion when every input addresses a
ship (or nothing). -/
theorem advanceLoop_no_assert (T : Trig) (spec : GameSpec)
    (inputs : List PlayerInput) (dt : ℚ) (l : List (Nat × Actor))
    (acc : Actors)
    (hpre : ∀ pi ∈ inputs, ∀ p ∈ l, p.1 = pi.player → p.2.isShipB = true) :
    advanceLoop T spec inputs dt l acc ≠ .error .assertInputSome := by
  induction l generalizing acc with
  | nil => intro hcon; exact Except.noConfusion hcon
  | cons q rest ih =>
    obtain ⟨actor_id, actor⟩ := q
    intro hcon
    unfold advanceLoop at hcon
    cases hA : Actor.advanceA T spec actor acc (PlayerInput.lookup inputs actor_id) dt with
    | error e =>
      rw [hA] at hcon
      simp only [Bind.bind, Except.bind] at hcon
      have he : e = .badSpec := by
        refine advanceA_error_badSpec T spec actor acc _ dt e ?_ hA
        by_cases hship : actor.isShipB = true
        · exact Or.inl hship
        · refine Or.inr ?_
          cases hlk : PlayerInput.lookup inputs actor_id with
          | none => rfl
          | some i =>
            obtain ⟨pi, hm, hpi⟩ := lookup_isSome_mem inputs actor_id (by rw [hlk]; rfl)
            exact absurd (hpre pi hm (actor_id, actor) (List.mem_cons_self _ _) hpi.symm) hship
      rw [he] at hcon
      exact PanicKind.noConfusion (Except.error.injEq _ _ ▸ hcon)
    | ok p =>
      rw [hA] at hcon
      simp only [Bind.bind, Except.bind] at hcon
      exact ih _ (fun pi hm q' hq' => hpre pi hm q' (List.mem_cons_of_mem _ hq')) hcon

/-- Pass A panics when some shooter or bullet of the registry is
addressed by an input. -/
theorem advanceLoop_err (T : Trig) (spec : GameSpec)
    (inputs : List PlayerInput) (dt : ℚ) (l : List (Nat × Actor))
    (acc : Actors) (p : Nat × Actor) (hp : p ∈ l)
    (hbad : p.2.isShipB = false)
    (hsome : (PlayerInput.lookup inputs p.1).isSome = true) :
    ∃ e, advanceLoop T spec inputs dt l acc = .error e := by
  induction l generalizing acc with
  | nil => exact absurd hp (List.not_mem_nil p)
  | cons q rest ih =>
    obtain ⟨actor_id, actor⟩ := q
    unfold advanceLoop
    cases hA : Actor.advanceA T spec actor acc (PlayerInput.lookup inputs actor_id) dt with
    | error e => exact ⟨e, rfl⟩
    | ok pr =>
      rcases List.mem_cons.mp hp with heq | hmem
      · exfalso
        subst heq
        have hcontra : Actor.advanceA T spec actor acc (PlayerInput.lookup inputs actor_id) dt =
            .error .assertInputSome :=
          advanceA_assert T spec actor acc _ dt hbad hsome
        rw [hA] at hcontra
        exact Except.noConfusion hcontra
      · obtain ⟨e, he⟩ := ih (match pr.1 with
          | none => pr.2
          | some advanced => pr.2.insert actor_id advanced) hmem
        exact ⟨e, he⟩

/-- C10: under the precondition that every input addresses a ship (or
no actor), `Game::advance` never hits the `assert!(input.is_none())`
assertions; conversely, an input batch addressing a bullet or shooter
present in the registry makes `Game::advance` panic. -/
theorem game_advance_assert_safety (T : Trig) (spec : GameSpec) (g : Game)
    (inputs : List PlayerInput) (dt : ℚ) :
    ((∀ pi ∈ inputs, ∀ p ∈ g.actors.list, p.1 = pi.player → p.2.isShipB = true) →
      Game.advanceE T spec g inputs dt ≠ .error .assertInputSome) ∧
    (∀ p ∈ g.actors.list, p.2.isShipB = false →
      (PlayerInput.lookup inputs p.1).isSome = true →
      ∃ e, Game.advanceE T spec g inputs dt = .error e) := by
  constructor
  · intro hpre hcon
    unfold Game.advanceE at hcon
    cases hL : advanceLoop T spec inputs dt g.actors.list (Actors.prepare_new g.actors) with
    | error e =>
      rw [hL] at hcon
      simp only [Bind.bind, Except.bind, Except.error.injEq] at hcon
      rw [hcon] at hL
      exact advanceLoop_no_assert T spec inputs dt g.actors.list _ hpre hL
    | ok adv =>
      rw [hL] at hcon
      exact Except.noConfusion hcon
  · intro p hp hbad hsome
    obtain ⟨e, hL⟩ :=
      advanceLoop_err T spec inputs dt g.actors.list (Actors.prepare_new g.actors) p hp hbad hsome
    refine ⟨e, ?_⟩
    unfold Game.advanceE
    rw [hL]
    rfl

/-- Witness for `game_advance_assert_safety`: a ship-only game with a
matching input never asserts; a bullet-only game with a matching input
panics. -/
theorem game_advance_assert_safety_witness :
    (Game.advanceE trigZero gsC gC4 [⟨0, inputStill⟩] 1 ≠ .error .assertInputSome) ∧
    (∃ e, Game.advanceE trigZero gsC
      ⟨⟨[(5, .bullet ⟨1, ⟨⟨1, 1⟩, 0⟩, 0⟩)], 6⟩, 0⟩ [⟨5, inputStill⟩] 1 = .error e) :=
  ⟨(game_advance_assert_safety trigZero gsC gC4 [⟨0, inputStill⟩] 1).1
    (by intro pi hm p hp hpl
        simp only [List.mem_singleton] at hm
        simp only [gC4, List.mem_singleton] at hp
        subst hm; subst hp
        rfl),
   (game_advance_assert_safety trigZero gsC
      ⟨⟨[(5, .bullet ⟨1, ⟨⟨1, 1⟩, 0⟩, 0⟩)], 6⟩, 0⟩ [⟨5, inputStill⟩] 1).2
      (5, .bullet ⟨1, ⟨⟨1, 1⟩, 0⟩, 0⟩) (by simp) rfl rfl⟩

/-- The bullet liveness property of the spec: inside the map, not yet
expired (its spec resolves, and the age is below its lifetime). -/
def BulletOk (spec : GameSpec) (b : Bullet) : Prop :=
  0 ≤ b.trans.pos.x ∧ b.trans.pos.x ≤ spec.map.w ∧
  0 ≤ b.trans.pos.y ∧ b.trans.pos.y ≤ spec.map.h ∧
  ∃ bs, resolveBullet spec b.spec = some bs ∧ b.age < bs.lifetime

/-- Every bullet of a registry is either freshly spawned (age `0`) or
satisfies the liveness bounds. -/
def BulletsOk (spec : GameSpec) (acts : Actors) : Prop :=
  ∀ id b, (id, Actor.bullet b) ∈ acts.list → b.age = 0 ∨ BulletOk spec b

/-- A bullet surviving `Bullet::advance` passed the liveness check. -/
theorem bullet_advance_ok (T : Trig) (spec : GameSpec) (b : Bullet) (dt : ℚ)
    (b' : Bullet) (h : Bullet.advance T spec b dt = .ok (some b')) :
    BulletOk spec b' := by
  unfold Bullet.advance at h
  cases hr : resolveBullet spec b.spec with
  | none => rw [hr] at h; exact Except.noConfusion h
  | some bs =>
    rw [hr] at h
    dsimp only at h
    split at h
    · next halive =>
      simp only [Except.ok.injEq, Option.some.injEq] at h
      simp only [Bool.and_eq_true, decide_eq_true_eq] at halive
      obtain ⟨⟨⟨hx0, hxw⟩, hy0, hyh⟩, hage⟩ := halive
      subst h
      exact ⟨hx0, hxw, hy0, hyh, bs, hr, hage⟩
    · simp only [Except.ok.injEq] at h
      exact Option.noConfusion h

/-- Entries after a `HashMap::insert` come from the old registry or are
the inserted binding. -/
theorem mem_insert (a : Actors) (actor_id : Nat) (act : Actor)
    (p : Nat × Actor) (hp : p ∈ (a.insert actor_id act).list) :
    p ∈ a.list ∨ p = (actor_id, act) := by
  unfold Actors.insert at hp
  split at hp
  · simp only [List.mem_map] at hp
    obtain ⟨q, hq, he⟩ := hp
    by_cases hid : q.1 = actor_id
    · right; rw [← he, if_pos hid]
    · left; rw [← he, if_neg hid]; exact hq
  · rcases List.mem_append.mp hp with hold | hnew
    · exact Or.inl hold
    · exact Or.inr (List.mem_singleton.mp hnew)

/-- Entries after `Actors::add` come from the old registry or are the
fresh binding. -/
theorem mem_add (a : Actors) (act : Actor) (p : Nat × Actor)
    (hp : p ∈ ((a.add act).1).list) :
    p ∈ a.list ∨ p = (a.count, act) := by
  unfold Actors.add at hp
  exact mem_insert ⟨a.list, (a.count + 1) % 2 ^ 32⟩ a.count act p hp

/-- `Ship::advance` only ever appends fresh bullets (age `0`) to the
registry it mutates. -/
theorem ship_advance_acts (T : Trig) (sspec : GameSpec) (s : Ship)
    (acts : Actors) (input : Option Input) (dt : ℚ)
    (res : Option Ship × Actors)
    (h : Ship.advance T sspec s acts input dt = .ok res) :
    ∀ p ∈ res.2.list, p ∈ acts.list ∨ ∃ b : Bullet, p.2 = .bullet b ∧ b.age = 0 := by
  unfold Ship.advance at h
  cases hr : resolveShip sspec s.spec with
  | none => rw [hr] at h; exact Except.noConfusion h
  | some spec =>
    rw [hr] at h
    cases input with
    | none =>
      dsimp only at h
      simp only [Except.ok.injEq] at h
      intro p hp
      rw [← h] at hp
      exact Or.inl hp
    | some i =>
      dsimp only at h
      by_cases hf : (i.firing && decide (spec.firing_interval ≤ s.not_firing_for)) = true
      · rw [if_pos hf] at h
        simp only [Except.ok.injEq] at h
        intro p hp
        rw [← h] at hp
        dsimp only at hp
        rcases mem_add _ _ p hp with hold | hfresh
        · exact Or.inl hold
        · exact Or.inr ⟨_, by rw [hfresh], rfl⟩
      · rw [if_neg hf] at h
        simp only [Except.ok.injEq] at h
        intro p hp
        rw [← h] at hp
        exact Or.inl hp

/-- `Shooter::advance` only ever appends fresh bullets (age `0`) to the
registry it mutates. -/
theorem shooter_advance_acts (sspec : GameSpec) (sh : Shooter)
    (acts : Actors) (dt : ℚ) (res : Option Shooter × Actors)
    (h : Shooter.advance sspec sh acts dt = .ok res) :
    ∀ p ∈ res.2.list, p ∈ acts.list ∨ ∃ b : Bullet, p.2 = .bullet b ∧ b.age = 0 := by
  unfold Shooter.advance at h
  cases hr : resolveShooter sspec sh.spec with
  | none => rw [hr] at h; exact Except.noConfusion h
  | some spec =>
    rw [hr] at h
    dsimp only at h
    split at h
    · simp only [Except.ok.injEq] at h
      intro p hp
      rw [← h] at hp
      dsimp only at hp
      rcases mem_add _ _ p hp with hold | hfresh
      · exact Or.inl hold
      · exact Or.inr ⟨_, by rw [hfresh], rfl⟩
    · simp only [Except.ok.injEq] at h
      intro p hp
      rw [← h] at hp
      exact Or.inl hp

/-- One `Actor::advance` step: the mutated registry only grows by fresh
bullets, and an advanced actor that is a bullet passed the liveness
check. -/
theorem advanceA_acts_bullets (T : Trig) (sspec : GameSpec) (a : Actor)
    (acts : Actors) (input : Option Input) (dt : ℚ)
    (pr : Option Actor × Actors)
    (h : Actor.advanceA T sspec a acts input dt = .ok pr) :
    (∀ p ∈ pr.2.list, p ∈ acts.list ∨ ∃ b : Bullet, p.2 = .bullet b ∧ b.age = 0) ∧
    (∀ b', pr.1 = some (.bullet b') → BulletOk sspec b') := by
  cases a with
  | ship s =>
    rw [advanceA_ship] at h
    cases hA : Ship.advance T sspec s acts input dt with
    | error e => rw [hA] at h; exact Except.noConfusion h
    | ok res =>
      rw [hA] at h
      simp only [Except.map, Except.ok.injEq] at h
      subst h
      refine ⟨ship_advance_acts T sspec s acts input dt res hA, ?_⟩
      intro b' hb'
      exfalso
      cases hres : res.1 with
      | none => rw [hres] at hb'; exact Option.noConfusion hb'
      | some sh' =>
        rw [hres] at hb'
        simp at hb'
  | shooter sh =>
    rw [advanceA_shooter] at h
    cases hin : input.isSome with
    | true => rw [hin] at h; simp only [if_true] at h; exact Except.noConfusion h
    | false =>
      rw [hin] at h
      simp only [Bool.false_eq_true, if_false] at h
      cases hA : Shooter.advance sspec sh acts dt with
      | error e => rw [hA] at h; exact Except.noConfusion h
      | ok res =>
        rw [hA] at h
        simp only [Except.map, Except.ok.injEq] at h
        subst h
        refine ⟨shooter_advance_acts sspec sh acts dt res hA, ?_⟩
        intro b' hb'
        exfalso
        cases hres : res.1 with
        | none => rw [hres] at hb'; exact Option.noConfusion hb'
        | some sh' =>
          rw [hres] at hb'
          simp at hb'
  | bullet b =>
    rw [advanceA_bullet] at h
    cases hin : input.isSome with
    | true => rw [hin] at h; simp only [if_true] at h; exact Except.noConfusion h
    | false =>
      rw [hin] at h
      simp only [Bool.false_eq_true, if_false] at h
      cases hA : Bullet.advance T sspec b dt with
      | error e => rw [hA] at h; exact Except.noConfusion h
      | ok mb =>
        rw [hA] at h
        simp only [Except.map, Except.ok.injEq] at h
        subst h
        refine ⟨fun p hp => Or.inl hp, ?_⟩
        intro b' hb'
        cases hmb : mb with
        | none => rw [hmb] at hb'; exact Option.noConfusion hb'
        | some bb =>
          rw [hmb] at hA hb'
          simp only [Option.map, Option.some.injEq, Actor.bullet.injEq] at hb'
          rw [← hb']
          exact bullet_advance_ok T sspec b dt bb hA

/-- Pass A preserves the bullet liveness invariant. -/
theorem advanceLoop_bullets (T : Trig) (spec : GameSpec)
    (inputs : List PlayerInput) (dt : ℚ) (l : List (Nat × Actor)) :
    ∀ acc res : Actors, BulletsOk spec acc →
    advanceLoop T spec inputs dt l acc = .ok res →
    BulletsOk spec res := by
  induction l with
  | nil =>
    intro acc res hacc h
    unfold advanceLoop at h
    simp only [Except.ok.injEq] at h
    rw [← h]
    exact hacc
  | cons q rest ih =>
    obtain ⟨actor_id, actor⟩ := q
    intro acc res hacc h
    unfold advanceLoop at h
    cases hA : Actor.advanceA T spec actor acc (PlayerInput.lookup inputs actor_id) dt with
    | error e => rw [hA] at h; exact Except.noConfusion h
    | ok pr =>
      rw [hA] at h
      simp only [Bind.bind, Except.bind] at h
      obtain ⟨hgrow, hadv⟩ := advanceA_acts_bullets T spec actor acc _ dt pr hA
      have hpr2 : BulletsOk spec pr.2 := by
        intro id b hb
        rcases hgrow (id, .bullet b) hb with hold | ⟨b'', hb'', hage⟩
        · exact hacc id b hold
        · simp only at hb''
          cases hb''
          exact Or.inl hage
      refine ih _ res ?_ h
      cases hm : pr.1 with
      | none => exact hpr2
      | some advanced =>
        intro id b hb
        rcases mem_insert pr.2 actor_id advanced (id, .bullet b) hb with hold | hnew
        · exact hpr2 id b hold
        · simp only [Prod.mk.injEq] at hnew
          obtain ⟨_, hact⟩ := hnew
          refine Or.inr (hadv b ?_)
          rw [hm, hact]

/-- Pass B (interaction, currently the identity) preserves the bullet
liveness invariant. -/
theorem interactLoop_bullets (spec : GameSpec) (advanced : Actors)
    (l : List (Nat × Actor)) :
    ∀ acc : Actors,
    (∀ id b, (id, Actor.bullet b) ∈ l → b.age = 0 ∨ BulletOk spec b) →
    BulletsOk spec acc →
    BulletsOk spec (interactLoop spec advanced l acc) := by
  induction l with
  | nil =>
    intro acc _ hacc
    exact hacc
  | cons q rest ih =>
    obtain ⟨actor_id, actor⟩ := q
    intro acc hl hacc
    show BulletsOk spec (interactLoop spec advanced rest (acc.insert actor_id actor))
    refine ih _ (fun id b hb => hl id b (List.mem_cons_of_mem _ hb)) ?_
    intro id b hb
    rcases mem_insert acc actor_id actor (id, .bullet b) hb with hold | hnew
    · exact hacc id b hold
    · exact hl id b (by rw [hnew]; exact List.mem_cons_self _ _)

/-- C2 (amended: a bullet freshly spawned during the tick has age `0`
but may lie outside the map): every bullet of the advanced game either
is freshly spawned (age `0`) or satisfies the liveness bounds
`0 ≤ pos ≤ map` and `age < lifetime`; and a bullet whose age has
reached its lifetime never survives `Bullet::advance`. -/
theorem game_advance_bullet_bounds (T : Trig) (spec : GameSpec) (g : Game)
    (inputs : List PlayerInput) (dt : ℚ) (g' : Game) (hdt : 0 < dt)
    (h : Game.advanceE T spec g inputs dt = .ok g') :
    (∀ id b, (id, Actor.bullet b) ∈ g'.actors.list →
      b.age = 0 ∨ BulletOk spec b) ∧
    (∀ (b : Bullet) (bs : BulletSpec), resolveBullet spec b.spec = some bs →
      bs.lifetime ≤ b.age → Bullet.advance T spec b dt = .ok none) := by
  constructor
  · unfold Game.advanceE at h
    cases hL : advanceLoop T spec inputs dt g.actors.list (Actors.prepare_new g.actors) with
    | error e => rw [hL] at h; exact Except.noConfusion h
    | ok adv =>
      rw [hL] at h
      simp only [Bind.bind, Except.bind, Except.ok.injEq] at h
      have hadvOk : BulletsOk spec adv :=
        advanceLoop_bullets T spec inputs dt g.actors.list
          (Actors.prepare_new g.actors) adv
          (fun _ _ hb => absurd hb (List.not_mem_nil _)) hL
      have hres : BulletsOk spec (interactLoop spec adv adv.list (Actors.prepare_new adv)) :=
        interactLoop_bullets spec adv adv.list (Actors.prepare_new adv)
          (fun id b hb => hadvOk id b hb)
          (fun _ _ hb => absurd hb (List.not_mem_nil _))
      rw [← h]
      exact hres
  · intro b bs hres hage
    unfold Bullet.advance
    rw [hres]
    dsimp only
    have hlt : ¬ (b.age + dt < bs.lifetime) := by linarith
    simp [hlt]

/-- Witness for `game_advance_bullet_bounds` at the empty game. -/
theorem game_advance_bullet_bounds_witness :
    (0 : ℚ) < 1 ∧
    ((∀ id b, (id, Actor.bullet b) ∈ (⟨⟨[], 0⟩, 0 + 1⟩ : Game).actors.list →
       b.age = 0 ∨ BulletOk gsC b) ∧
     (∀ (b : Bullet) (bs : BulletSpec), resolveBullet gsC b.spec = some bs →
       bs.lifetime ≤ b.age → Bullet.advance trigZero gsC b 1 = .ok none)) :=
  ⟨by norm_num,
   game_advance_bullet_bounds trigZero gsC g0 [] 1 ⟨⟨[], 0⟩, 0 + 1⟩
     (by norm_num) rfl⟩

/-- A ship with inert physics sitting on the right map edge. -/
def shipC2 : Ship := ⟨0, ⟨⟨1000, 500⟩, 0⟩, ⟨0, 0⟩, 100000, false, .Still, ⟨⟨0, 0⟩, ⟨0, 0⟩⟩⟩

/-- A game holding only `shipC2` under actor id `0`. -/
def gC2 : Game := ⟨⟨[(0, .ship shipC2)], 1⟩, 0⟩

/-- The bullet `shipC2` spawns when firing at the map edge: its `x` is
`1010`, outside the `1000`-wide map. -/
def bulletC2out : Bullet := ⟨1, ⟨⟨1010, 500⟩, 0⟩, 0⟩

/-- `shipC2` after the firing tick. -/
def shipC2res : Ship := ⟨0, ⟨⟨1000, 500⟩, 0⟩, ⟨0, 0⟩, 0, false, .Still, ⟨⟨200, 0⟩, ⟨0, 0⟩⟩⟩

/-- `gC2` after the firing tick. -/
def gC2res : Game := ⟨⟨[(1, .bullet bulletC2out), (0, .ship shipC2res)], 2⟩, 1⟩

/-- C2 counterexample: a ship firing from the map edge puts into the
advanced game a bullet with `pos.x = 1010 > map.w = 1000`, so "every
bullet of the advanced game is inside the map" fails as stated. -/
theorem game_advance_bullet_bounds_cex :
    (0 : ℚ) < 1 ∧
    Game.advanceE trigZero gsC gC2 [⟨0, inputFire⟩] 1 = .ok gC2res ∧
    (1, Actor.bullet bulletC2out) ∈ gC2res.actors.list ∧
    ¬ (bulletC2out.trans.pos.x ≤ gsC.map.w) := by
  refine ⟨by norm_num, ?_, by simp [gC2res], by norm_num [bulletC2out, gsC]⟩
  norm_num [Game.advanceE, advanceLoop, interactLoop, Actor.advanceA,
    Actor.interact, Ship.advance, resolveShip, GameSpec.get_spec, Spec.is_ship,
    gsC, shipSpecC, gC2, shipC2, inputFire, PlayerInput.lookup,
    Actors.prepare_new, Actors.insert, Actors.add, integrate, evaluate,
    shipAccel, Vec2.scale, Vec2.zero, Camera.advance, Map.bound,
    Map.bound_rect, Transform.addVec, Vec2.rotate, trigZero, SCREEN_WIDTH,
    SCREEN_HEIGHT, Bind.bind, Except.bind, Except.map, bulletSpecC,
    shooterSpecC, gC2res, shipC2res, bulletC2out]

/-!  The `bincode` body codec.  Bytes are `Nat`s below `256`.  `f32`/`f64`
values are carried by their raw bit patterns (`write_be_f32` /
`read_be_f32` transmute, so the codec is bit-exact on floats). -/

/-- Big-endian bytes of `n` (the low `w` bytes, most significant
first), as written by `write_be_u*`. -/
def beBytes : Nat → Nat → List Nat
  | 0, _ => []
  | k + 1, n => (n / 256 ^ k) % 256 :: beBytes k n

/-- Read `w` big-endian bytes, as done by `read_be_u*`; `none` on
truncated input. -/
def beRead : Nat → List Nat → Option (Nat × List Nat)
  | 0, bs => some (0, bs)
  | _ + 1, [] => none
  | k + 1, b :: bs => (beRead k bs).bind fun p => some (b * 256 ^ k + p.1, p.2)

/-- `beBytes` only depends on `n` modulo `256^w`. -/
theorem beBytes_mod (k n : Nat) : beBytes k (n % 256 ^ k) = beBytes k n := by
  induction k generalizing n with
  | zero => rfl
  | succ k ih =>
    have hdvd : (256 ^ k : Nat) ∣ 256 ^ (k + 1) := pow_dvd_pow 256 (Nat.le_succ k)
    have htail : beBytes k (n % 256 ^ (k + 1)) = beBytes k n := by
      calc beBytes k (n % 256 ^ (k + 1))
          = beBytes k (n % 256 ^ (k + 1) % 256 ^ k) := (ih _).symm
        _ = beBytes k (n % 256 ^ k) := by rw [Nat.mod_mod_of_dvd n hdvd]
        _ = beBytes k n := ih n
    have hhead : n % 256 ^ (k + 1) / 256 ^ k % 256 = n / 256 ^ k % 256 := by
      rw [pow_succ, Nat.mod_mul_right_div_self, Nat.mod_mod_of_dvd _ (dvd_refl 256)]
    unfold beBytes
    rw [hhead, htail]

/-- Reading back the big-endian bytes of `n < 256^w` recovers `n` and
leaves the rest of the input untouched. -/
theorem beRead_beBytes (k n : Nat) (rest : List Nat) (h : n < 256 ^ k) :
    beRead k (beBytes k n ++ rest) = some (n, rest) := by
  induction k generalizing n with
  | zero =>
    have : n = 0 := Nat.lt_one_iff.mp (by simpa using h)
    subst this
    rfl
  | succ k ih =>
    have hmod : n % 256 ^ k < 256 ^ k := Nat.mod_lt n (Nat.pos_pow_of_pos k (by norm_num))
    have hrd : beRead k (beBytes k n ++ rest) = some (n % 256 ^ k, rest) := by
      rw [← beBytes_mod k n]
      exact ih (n % 256 ^ k) hmod
    show beRead (k + 1) ((n / 256 ^ k % 256) :: (beBytes k n ++ rest)) = some (n, rest)
    unfold beRead
    rw [hrd]
    dsimp only [Option.bind]
    have hdivlt : n / 256 ^ k < 256 := by
      rw [Nat.div_lt_iff_lt_mul (Nat.pos_pow_of_pos k (by norm_num))]
      calc n < 256 ^ (k + 1) := h
        _ = 256 * 256 ^ k := by rw [pow_succ, Nat.mul_comm]
    have hval : n / 256 ^ k % 256 * 256 ^ k + n % 256 ^ k = n := by
      rw [Nat.mod_eq_of_lt hdivlt, Nat.mul_comm]
      exact Nat.div_add_mod n (256 ^ k)
    rw [hval]

/-- Interpretation of `w` big-endian bytes as a signed integer
(`read_be_i*`): two's complement. -/
def decInt (w : Nat) (n : Nat) : Int :=
  if n < 2 ^ (8 * w - 1) then (n : Int) else (n : Int) - 2 ^ (8 * w)

/-- Two's-complement round-trip: encoding an in-range `i` as its
nonnegative residue modulo `2^(8w)` and reading it back as a signed
value recovers `i` (and the residue fits in `w` bytes). -/
theorem decInt_round (w : Nat) (hw : 1 ≤ w) (i : Int)
    (h1 : -(2 ^ (8 * w - 1)) ≤ i) (h2 : i < 2 ^ (8 * w - 1)) :
    (i % (2 ^ (8 * w) : Int)).toNat < 256 ^ w ∧
    decInt w ((i % (2 ^ (8 * w) : Int)).toNat) = i := by
  have hexp : 8 * w = (8 * w - 1) + 1 := by omega
  have hM2 : (2 ^ (8 * w) : Int) = 2 ^ (8 * w - 1) * 2 := by
    calc (2 ^ (8 * w) : Int) = 2 ^ ((8 * w - 1) + 1) := by rw [← hexp]
      _ = 2 ^ (8 * w - 1) * 2 := pow_succ 2 (8 * w - 1)
  have hMN : (256 : Nat) ^ w = 2 ^ (8 * w) := by
    rw [show (256 : Nat) = 2 ^ 8 by norm_num, ← pow_mul]
  have hA : (0 : Int) < 2 ^ (8 * w - 1) := by positivity
  have hcastM : ((2 ^ (8 * w) : Nat) : Int) = 2 ^ (8 * w) := by push_cast; rfl
  have hcastA : ((2 ^ (8 * w - 1) : Nat) : Int) = 2 ^ (8 * w - 1) := by push_cast; rfl
  by_cases hpos : 0 ≤ i
  · have hiltM : i < 2 ^ (8 * w) := by rw [hM2]; linarith
    have hemod : i % (2 ^ (8 * w) : Int) = i := Int.emod_eq_of_lt hpos hiltM
    rw [hemod]
    constructor
    · rw [hMN]
      exact (Int.toNat_lt hpos).mpr (by rw [hcastM]; exact hiltM)
    · unfold decInt
      rw [if_pos ((Int.toNat_lt hpos).mpr (by rw [hcastA]; exact h2))]
      exact Int.toNat_of_nonneg hpos
  · have hi0 : i < 0 := by omega
    have hlow : 0 ≤ i + 2 ^ (8 * w) := by rw [hM2]; linarith
    have hhigh : i + 2 ^ (8 * w) < 2 ^ (8 * w) := by linarith
    have hemod : i % (2 ^ (8 * w) : Int) = i + 2 ^ (8 * w) := by
      calc i % (2 ^ (8 * w) : Int)
          = (i + 2 ^ (8 * w) * 1) % (2 ^ (8 * w) : Int) :=
            (Int.add_mul_emod_self_left i (2 ^ (8 * w)) 1).symm
        _ = (i + 2 ^ (8 * w)) % (2 ^ (8 * w) : Int) := by ring_nf
        _ = i + 2 ^ (8 * w) := Int.emod_eq_of_lt hlow hhigh
    rw [hemod]
    have hge : (2 ^ (8 * w - 1) : Int) ≤ i + 2 ^ (8 * w) := by rw [hM2]; linarith
    constructor
    · rw [hMN]
      exact (Int.toNat_lt hlow).mpr (by rw [hcastM]; exact hhigh)
    · unfold decInt
      rw [if_neg]
      · rw [Int.toNat_of_nonneg hlow]
        ring
      · intro hcon
        have := (Int.toNat_lt hlow).mp hcon
        rw [hcastA] at this
        linarith

/-- The structural UTF-8 validity check performed by
`String::from_utf8` (lead-byte classes, continuation ranges, no
overlongs, no surrogates, max `U+10FFFF`). -/
def utf8Valid : List Nat → Bool
  | [] => true
  | b :: rest =>
    if b < 0x80 then utf8Valid rest
    else if b < 0xC2 then false
    else if b < 0xE0 then
      match rest with
      | b1 :: r => (0x80 ≤ b1 && b1 < 0xC0) && utf8Valid r
      | _ => false
    else if b < 0xF0 then
      match rest with
      | b1 :: b2 :: r =>
        (if b = 0xE0 then 0xA0 ≤ b1 && b1 < 0xC0
         else if b = 0xED then 0x80 ≤ b1 && b1 < 0xA0
         else 0x80 ≤ b1 && b1 < 0xC0) &&
        (0x80 ≤ b2 && b2 < 0xC0) && utf8Valid r
      | _ => false
    else if b < 0xF5 then
      match rest with
      | b1 :: b2 :: b3 :: r =>
        (if b = 0xF0 then 0x90 ≤ b1 && b1 < 0xC0
         else if b = 0xF4 then 0x80 ≤ b1 && b1 < 0x90
         else 0x80 ≤ b1 && b1 < 0xC0) &&
        (0x80 ≤ b2 && b2 < 0xC0) && (0x80 ≤ b3 && b3 < 0xC0) && utf8Valid r
      | _ => false
    else false

/-- The shapes the codec can decode (decoding is type-driven through
`rustc-serialize`'s `Decodable`): fixed-width integers, floats, bools,
`Option`, tagged variants, `u64`-length-prefixed sequences, strings and
mappings, untagged structs/tuples, and the `u32`-length-prefixed
sequence used by the hand-written `Actors` codec. -/
inductive Ty where
  | u8 | u16 | u32 | u64
  | i8 | i16 | i32 | i64
  | f32 | f64
  | bool
  | option (t : Ty)
  | variants (cs : List (List Ty))
  | seq (t : Ty)
  | str
  | map (k v : Ty)
  | tuple (ts : List Ty)
  | seq32 (t : Ty)
  deriving Repr

/-- The values the codec serializes. Unsigned values carry their byte
width; floats carry their raw bit pattern; strings carry their UTF-8
bytes (a Rust `String` is exactly its UTF-8 byte buffer). -/
inductive Value where
  | uint (w : Nat) (n : Nat)
  | int (w : Nat) (i : Int)
  | f32 (bits : Nat)
  | f64 (bits : Nat)
  | bool (b : Bool)
  | option (v : Option Value)
  | variant (tag : Nat) (args : List Value)
  | seq (vs : List Value)
  | str (cs : List Nat)
  | map (ps : List (Value × Value))
  | tuple (vs : List Value)
  | seq32 (vs : List Value)
  deriving Repr

mutual

/-- The byte stream written by `EncoderWriter` for one value: all
scalars big-endian, `usize` lengths as `u64`, one-byte tags for bools,
options and variants, structs/tuples back to back. -/
def encode : Value → List Nat
  | .uint w n => beBytes w n
  | .int w i => beBytes w (i % (2 ^ (8 * w) : Int)).toNat
  | .f32 bits => beBytes 4 bits
  | .f64 bits => beBytes 8 bits
  | .bool b => [if b then 1 else 0]
  | .option none => [0]
  | .option (some v) => 1 :: encode v
  | .variant tag args => tag % 256 :: encodeList args
  | .seq vs => beBytes 8 vs.length ++ encodeList vs
  | .str cs => beBytes 8 cs.length ++ cs
  | .map ps => beBytes 8 ps.length ++ encodePairs ps
  | .tuple vs => encodeList vs
  | .seq32 vs => beBytes 4 vs.length ++ encodeList vs

/-- Concatenated encodings of a list of values. -/
def encodeList : List Value → List Nat
  | [] => []
  | v :: vs => encode v ++ encodeList vs

/-- Concatenated encodings of key/value pairs. -/
def encodePairs : List (Value × Value) → List Nat
  | [] => []
  | (a, b) :: ps => encode a ++ encode b ++ encodePairs ps

end

/-- Every `Ty` has positive size (used for termination measures). -/
theorem Ty.sizeOf_pos (t : Ty) : 0 < sizeOf t := by
  cases t <;> simp_arith

mutual

/-- The decoder of `DecoderReader`, driven by a `Ty`: returns the
decoded value and the remaining bytes, or `none` on truncated input or
invalid bytes (bad bool/option/variant tag, invalid UTF-8). -/
def decode : Ty → List Nat → Option (Value × List Nat)
  | .u8, bs => (beRead 1 bs).bind fun p => some (.uint 1 p.1, p.2)
  | .u16, bs => (beRead 2 bs).bind fun p => some (.uint 2 p.1, p.2)
  | .u32, bs => (beRead 4 bs).bind fun p => some (.uint 4 p.1, p.2)
  | .u64, bs => (beRead 8 bs).bind fun p => some (.uint 8 p.1, p.2)
  | .i8, bs => (beRead 1 bs).bind fun p => some (.int 1 (decInt 1 p.1), p.2)
  | .i16, bs => (beRead 2 bs).bind fun p => some (.int 2 (decInt 2 p.1), p.2)
  | .i32, bs => (beRead 4 bs).bind fun p => some (.int 4 (decInt 4 p.1), p.2)
  | .i64, bs => (beRead 8 bs).bind fun p => some (.int 8 (decInt 8 p.1), p.2)
  | .f32, bs => (beRead 4 bs).bind fun p => some (.f32 p.1, p.2)
  | .f64, bs => (beRead 8 bs).bind fun p => some (.f64 p.1, p.2)
  | .bool, bs =>
    match bs with
    | [] => none
    | b :: r =>
      if b = 1 then some (.bool true, r)
      else if b = 0 then some (.bool false, r)
      else none
  | .option t, bs =>
    match bs with
    | [] => none
    | b :: r =>
      if b = 1 then (decode t r).bind fun p => some (.option (some p.1), p.2)
      else if b = 0 then some (.option none, r)
      else none
  | .variants cs, bs =>
    match bs with
    | [] => none
    | tag :: r =>
      if htag : tag < cs.length then
        (decodeArgs (cs.get ⟨tag, htag⟩) r).bind fun p =>
          some (.variant tag p.1, p.2)
      else none
  | .seq t, bs =>
    (beRead 8 bs).bind fun p =>
      (decodeMany t p.1 p.2).bind fun q => some (.seq q.1, q.2)
  | .str, bs =>
    (beRead 8 bs).bind fun p =>
      if p.1 ≤ p.2.length then
        if utf8Valid (p.2.take p.1) then some (.str (p.2.take p.1), p.2.drop p.1)
        else none
      else none
  | .map k v, bs =>
    (beRead 8 bs).bind fun p =>
      (decodePairs k v p.1 p.2).bind fun q => some (.map q.1, q.2)
  | .tuple ts, bs => (decodeArgs ts bs).bind fun p => some (.tuple p.1, p.2)
  | .seq32 t, bs =>
    (beRead 4 bs).bind fun p =>
      (decodeMany t p.1 p.2).bind fun q => some (.seq32 q.1, q.2)
termination_by t _ => (sizeOf t, 0)
decreasing_by
  all_goals simp_wf
  all_goals
    apply Prod.Lex.left
    first
      | omega
      | (have h1 := List.sizeOf_lt_of_mem (List.getElem_mem htag)
         omega)

/-- Decode `n` values of one shape (sequence elements). -/
def decodeMany : Ty → Nat → List Nat → Option (List Value × List Nat)
  | _, 0, bs => some ([], bs)
  | t, n + 1, bs =>
    (decode t bs).bind fun p =>
      (decodeMany t n p.2).bind fun q => some (p.1 :: q.1, q.2)
termination_by t n _ => (sizeOf t, n + 1)
decreasing_by
  all_goals simp_wf
  all_goals (apply Prod.Lex.right; omega)

/-- Decode `n` key/value pairs (map entries). -/
def decodePairs : Ty → Ty → Nat → List Nat → Option (List (Value × Value) × List Nat)
  | _, _, 0, bs => some ([], bs)
  | k, v, n + 1, bs =>
    (decode k bs).bind fun p =>
      (decode v p.2).bind fun q =>
        (decodePairs k v n q.2).bind fun r => some ((p.1, q.1) :: r.1, r.2)
termination_by k v n _ => (sizeOf k + sizeOf v, n + 1)
decreasing_by
  all_goals simp_wf
  all_goals
    first
      | (apply Prod.Lex.left
         first
           | (have h2 := Ty.sizeOf_pos v; omega)
           | (have h3 := Ty.sizeOf_pos k; omega))
      | (apply Prod.Lex.right; omega)

/-- Decode a telescope of fields (struct/tuple/variant arguments). -/
def decodeArgs : List Ty → List Nat → Option (List Value × List Nat)
  | [], bs => some ([], bs)
  | t :: ts, bs =>
    (decode t bs).bind fun p =>
      (decodeArgs ts p.2).bind fun q => some (p.1 :: q.1, q.2)
termination_by ts _ => (sizeOf ts, 0)
decreasing_by
  all_goals simp_wf
  all_goals (apply Prod.Lex.left; omega)

end

/-- The in-scope values of the codec: a value together with the shape
its decoder expects; widths, ranges and lengths fit what the encoders
write (lengths in `u64`/`u32`, variant tags in one byte, strings valid
UTF-8). -/
inductive HasTy : Value → Ty → Prop where
  | u8 {n : Nat} : n < 2 ^ 8 → HasTy (.uint 1 n) .u8
  | u16 {n : Nat} : n < 2 ^ 16 → HasTy (.uint 2 n) .u16
  | u32 {n : Nat} : n < 2 ^ 32 → HasTy (.uint 4 n) .u32
  | u64 {n : Nat} : n < 2 ^ 64 → HasTy (.uint 8 n) .u64
  | i8 {i : Int} : -(2 ^ 7) ≤ i → i < 2 ^ 7 → HasTy (.int 1 i) .i8
  | i16 {i : Int} : -(2 ^ 15) ≤ i → i < 2 ^ 15 → HasTy (.int 2 i) .i16
  | i32 {i : Int} : -(2 ^ 31) ≤ i → i < 2 ^ 31 → HasTy (.int 4 i) .i32
  | i64 {i : Int} : -(2 ^ 63) ≤ i → i < 2 ^ 63 → HasTy (.int 8 i) .i64
  | f32 {bits : Nat} : bits < 2 ^ 32 → HasTy (.f32 bits) .f32
  | f64 {bits : Nat} : bits < 2 ^ 64 → HasTy (.f64 bits) .f64
  | bool {b : Bool} : HasTy (.bool b) .bool
  | optNone {t : Ty} : HasTy (.option none) (.option t)
  | optSome {v : Value} {t : Ty} :
      HasTy v t → HasTy (.option (some v)) (.option t)
  | variant {tag : Nat} {args : List Value} {cs : List (List Ty)}
      {ts : List Ty} :
      tag < 256 → cs.get? tag = some ts → args.length = ts.length →
      (∀ p ∈ args.zip ts, HasTy p.1 p.2) →
      HasTy (.variant tag args) (.variants cs)
  | seq {vs : List Value} {t : Ty} :
      vs.length < 2 ^ 64 → (∀ v ∈ vs, HasTy v t) →
      HasTy (.seq vs) (.seq t)
  | str {cs : List Nat} :
      cs.length < 2 ^ 64 → utf8Valid cs = true → HasTy (.str cs) .str
  | map {ps : List (Value × Value)} {k v : Ty} :
      ps.length < 2 ^ 64 → (∀ p ∈ ps, HasTy p.1 k) →
      (∀ p ∈ ps, HasTy p.2 v) → HasTy (.map ps) (.map k v)
  | tuple {vs : List Value} {ts : List Ty} :
      vs.length = ts.length → (∀ p ∈ vs.zip ts, HasTy p.1 p.2) →
      HasTy (.tuple vs) (.tuple ts)
  | seq32 {vs : List Value} {t : Ty} :
      vs.length < 2 ^ 32 → (∀ v ∈ vs, HasTy v t) →
      HasTy (.seq32 vs) (.seq32 t)

/-- Decoding a field telescope after encoding it element by element. -/
theorem decodeArgs_encodeList (args : List Value) :
    ∀ ts : List Ty, args.length = ts.length →
    (∀ p ∈ args.zip ts, ∀ rest, decode p.2 (encode p.1 ++ rest) = some (p.1, rest)) →
    ∀ rest, decodeArgs ts (encodeList args ++ rest) = some (args, rest) := by
  induction args with
  | nil =>
    intro ts hlen _ rest
    cases ts with
    | nil => simp [decodeArgs, encodeList]
    | cons t ts' => exact absurd hlen (by simp)
  | cons v vs ih =>
    intro ts hlen hIH rest
    cases ts with
    | nil => exact absurd hlen (by simp)
    | cons t ts' =>
      have h1 : decode t (encode v ++ (encodeList vs ++ rest)) =
          some (v, encodeList vs ++ rest) :=
        hIH (v, t) (by rw [List.zip_cons_cons]; exact List.mem_cons_self _ _) _
      have h2 : decodeArgs ts' (encodeList vs ++ rest) = some (vs, rest) :=
        ih ts' (by simpa using hlen)
          (fun p hp rest' =>
            hIH p (by rw [List.zip_cons_cons]; exact List.mem_cons_of_mem _ hp) rest')
          rest
      show decodeArgs (t :: ts') ((encode v ++ encodeList vs) ++ rest) = some (v :: vs, rest)
      rw [List.append_assoc]
      unfold decodeArgs
      rw [h1]
      dsimp only [Option.bind]
      rw [h2]

/-- Decoding `n` sequence elements after encoding them. -/
theorem decodeMany_encodeList (vs : List Value) (t : Ty)
    (hIH : ∀ v ∈ vs, ∀ rest, decode t (encode v ++ rest) = some (v, rest)) :
    ∀ rest, decodeMany t vs.length (encodeList vs ++ rest) = some (vs, rest) := by
  induction vs with
  | nil => intro rest; simp [decodeMany, encodeList]
  | cons v vs ih =>
    intro rest
    have h1 := hIH v (List.mem_cons_self _ _) (encodeList vs ++ rest)
    have h2 := ih (fun u hu rest' => hIH u (List.mem_cons_of_mem _ hu) rest') rest
    show decodeMany t (vs.length + 1) ((encode v ++ encodeList vs) ++ rest) =
      some (v :: vs, rest)
    rw [List.append_assoc]
    unfold decodeMany
    rw [h1]
    dsimp only [Option.bind]
    rw [h2]

/-- Decoding `n` map entries after encoding them. -/
theorem decodePairs_encodePairs (ps : List (Value × Value)) (k v : Ty)
    (hIH1 : ∀ p ∈ ps, ∀ rest, decode k (encode p.1 ++ rest) = some (p.1, rest))
    (hIH2 : ∀ p ∈ ps, ∀ rest, decode v (encode p.2 ++ rest) = some (p.2, rest)) :
    ∀ rest, decodePairs k v ps.length (encodePairs ps ++ rest) = some (ps, rest) := by
  induction ps with
  | nil => intro rest; simp [decodePairs, encodePairs]
  | cons q qs ih =>
    obtain ⟨a, b⟩ := q
    intro rest
    have h1 := hIH1 (a, b) (List.mem_cons_self _ _) (encode b ++ (encodePairs qs ++ rest))
    have h2 := hIH2 (a, b) (List.mem_cons_self _ _) (encodePairs qs ++ rest)
    have h3 := ih (fun p hp => hIH1 p (List.mem_cons_of_mem _ hp))
      (fun p hp => hIH2 p (List.mem_cons_of_mem _ hp)) rest
    rw [show encodePairs ((a, b) :: qs) = encode a ++ (encode b ++ encodePairs qs) from
          by simp [encodePairs],
        List.length_cons, List.append_assoc, List.append_assoc]
    unfold decodePairs
    rw [h1]
    dsimp only [Option.bind]
    rw [h2]
    dsimp only [Option.bind]
    rw [h3]

/-- C9: the codec round-trips — for every in-scope value (well-typed
per `HasTy`: fixed-width integers, floats, bools, options, tagged
variants, sequences, strings, mappings and the struct/tuple shapes the
application types such as `Input` and `PlayerGame` are built from),
decoding the encoding yields exactly the value back, consuming exactly
its bytes. -/
theorem codec_roundtrip (v : Value) (t : Ty) (h : HasTy v t)
    (rest : List Nat) : decode t (encode v ++ rest) = some (v, rest) := by
  induction h generalizing rest with
  | u8 hn =>
    simp only [encode, decode]
    rw [beRead_beBytes 1 _ rest (by simpa using hn)]
    rfl
  | u16 hn =>
    simp only [encode, decode]
    rw [beRead_beBytes 2 _ rest (by simpa using hn)]
    rfl
  | u32 hn =>
    simp only [encode, decode]
    rw [beRead_beBytes 4 _ rest (by simpa using hn)]
    rfl
  | u64 hn =>
    simp only [encode, decode]
    rw [beRead_beBytes 8 _ rest (by simpa using hn)]
    rfl
  | i8 h1 h2 =>
    obtain ⟨hlt, heq⟩ := decInt_round 1 (by norm_num) _ (by simpa using h1) (by simpa using h2)
    simp only [encode, decode]
    rw [beRead_beBytes 1 _ rest hlt]
    dsimp only [Option.bind]
    rw [heq]
  | i16 h1 h2 =>
    obtain ⟨hlt, heq⟩ := decInt_round 2 (by norm_num) _ (by simpa using h1) (by simpa using h2)
    simp only [encode, decode]
    rw [beRead_beBytes 2 _ rest hlt]
    dsimp only [Option.bind]
    rw [heq]
  | i32 h1 h2 =>
    obtain ⟨hlt, heq⟩ := decInt_round 4 (by norm_num) _ (by simpa using h1) (by simpa using h2)
    simp only [encode, decode]
    rw [beRead_beBytes 4 _ rest hlt]
    dsimp only [Option.bind]
    rw [heq]
  | i64 h1 h2 =>
    obtain ⟨hlt, heq⟩ := decInt_round 8 (by norm_num) _ (by simpa using h1) (by simpa using h2)
    simp only [encode, decode]
    rw [beRead_beBytes 8 _ rest hlt]
    dsimp only [Option.bind]
    rw [heq]
  | f32 hn =>
    simp only [encode, decode]
    rw [beRead_beBytes 4 _ rest (by simpa using hn)]
    rfl
  | f64 hn =>
    simp only [encode, decode]
    rw [beRead_beBytes 8 _ rest (by simpa using hn)]
    rfl
  | @bool b =>
    cases b <;> simp [encode, decode]
  | optNone =>
    simp [encode, decode]
  | optSome _ ih =>
    simp [encode, decode, ih rest]
  | @variant tag args cs ts htag hget hlen _ ih =>
    have htag' : tag < cs.length := List.get?_eq_some.mp hget |>.choose
    have hgeteq : cs.get ⟨tag, htag'⟩ = ts := by
      have := List.get?_eq_some.mp hget
      exact this.choose_spec
    simp only [encode, decode, List.cons_append]
    rw [Nat.mod_eq_of_lt htag]
    rw [dif_pos htag', hgeteq]
    rw [decodeArgs_encodeList args ts hlen ih rest]
    rfl
  | @seq vs t hlen _ ih =>
    simp only [encode, decode]
    rw [List.append_assoc, beRead_beBytes 8 _ _ (by simpa using hlen)]
    dsimp only [Option.bind]
    rw [decodeMany_encodeList vs t ih rest]
  | @str cs hlen hvalid =>
    simp only [encode, decode]
    rw [List.append_assoc, beRead_beBytes 8 _ _ (by simpa using hlen)]
    dsimp only [Option.bind]
    rw [if_pos (by simp), List.take_left, List.drop_left, hvalid]
    rfl
  | @map ps k v hlen _ _ ih1 ih2 =>
    simp only [encode, decode]
    rw [List.append_assoc, beRead_beBytes 8 _ _ (by simpa using hlen)]
    dsimp only [Option.bind]
    rw [decodePairs_encodePairs ps k v ih1 ih2 rest]
  | @tuple vs ts hlen _ ih =>
    simp only [encode, decode]
    rw [decodeArgs_encodeList vs ts hlen ih rest]
    rfl
  | @seq32 vs t hlen _ ih =>
    simp only [encode, decode]
    rw [List.append_assoc, beRead_beBytes 4 _ _ (by simpa using hlen)]
    dsimp only [Option.bind]
    rw [decodeMany_encodeList vs t ih rest]

/-- Shape of `geometry::Vec2` on the wire. -/
def TyVec2 : Ty := .tuple [.f32, .f32]

/-- Shape of `geometry::Transform` on the wire. -/
def TyTransform : Ty := .tuple [TyVec2, .f32]

/-- Shape of `input::Rotating` on the wire (three nullary variants). -/
def TyRotating : Ty := .variants [[], [], []]

/-- Shape of `input::Input` on the wire. -/
def TyInput : Ty := .tuple [.bool, .bool, .bool, TyRotating, .bool]

/-- Shape of `actors::Camera` on the wire. -/
def TyCamera : Ty := .tuple [TyVec2, TyVec2]

/-- Shape of `actors::Ship` on the wire. -/
def TyShip : Ty :=
  .tuple [.u32, TyTransform, TyVec2, .f32, .bool, TyRotating, TyCamera]

/-- Shape of `actors::Bullet` on the wire. -/
def TyBullet : Ty := .tuple [.u32, TyTransform, .f32]

/-- Shape of `actors::Shooter` on the wire. -/
def TyShooter : Ty := .tuple [.u32, .f32]

/-- Shape of `actors::Actor` on the wire. -/
def TyActor : Ty := .variants [[TyShip], [TyShooter], [TyBullet]]

/-- Shape of `actors::Actors` on the wire: the hand-written codec
writes a `u32` length, the `(id, actor)` pairs, then the `u32`
counter. -/
def TyActors : Ty := .tuple [.seq32 (.tuple [.u32, TyActor]), .u32]

/-- Shape of `actors::Game` on the wire. -/
def TyGame : Ty := .tuple [TyActors, .f32]

/-- Shape of `actors::PlayerGame` on the wire (the `Arc<Game>` encodes
as the `Game` itself). -/
def TyPlayerGame : Ty := .tuple [.u32, TyGame]

/-- A concrete `Input` (only `firing` held) as a codec value. -/
def inputValue0 : Value :=
  .tuple [.bool false, .bool false, .bool true, .variant 0 [], .bool false]

/-- `inputValue0` is in scope at shape `TyInput`. -/
theorem inputValue0_hasTy : HasTy inputValue0 TyInput := by
  refine HasTy.tuple rfl ?_
  intro p hp
  simp only [inputValue0, TyInput, TyRotating, List.zip_cons_cons,
    List.zip_nil_left, List.mem_cons, List.not_mem_nil, or_false] at hp
  rcases hp with rfl | rfl | rfl | rfl | rfl
  · exact HasTy.bool
  · exact HasTy.bool
  · exact HasTy.bool
  · refine HasTy.variant (by norm_num) rfl rfl ?_
    intro q hq
    simp at hq
  · exact HasTy.bool

/-- Witness for `codec_roundtrip`: a concrete `Input` value decodes
back from its encoding. -/
theorem codec_roundtrip_witness :
    decode TyInput (encode inputValue0 ++ []) = some (inputValue0, []) :=
  codec_roundtrip inputValue0 TyInput inputValue0_hasTy []

end Dogfights
